import Mathlib

/-
Verification development for the texture/image compositing core of a 2D
rendering engine (mipmap pyramids, pixel-patch store, vertex arena).
The definitions below are shallow embeddings of the Go source:
machine integers become ℤ/ℕ (no overflow is relevant to the statements
proved here), float32 values become ℚ (every float operation performed by
the embedded code paths — multiplication by 4, 2 or 1/2, subtraction of
exactly representable values, comparison against exactly representable
constants — is exact on the rational value of the operands), NaN is an
explicit extra alternative where the code tests for it, and panics become
an Option/none result.
-/

set_option maxHeartbeats 1000000

/-- Association-list lookup: first entry whose key matches. Models a Go map
read (keys are kept unique by construction wherever we build such lists). -/
def lookupA {α β : Type} [DecidableEq α] (l : List (α × β)) (k : α) : Option β :=
  match l with
  | [] => none
  | (a, b) :: t => if a = k then some b else lookupA t k

/-- Association-list insert-or-replace: models a Go map write. -/
def insertA {α β : Type} [DecidableEq α] (l : List (α × β)) (k : α) (v : β) : List (α × β) :=
  match l with
  | [] => [(k, v)]
  | (a, b) :: t => if a = k then (a, v) :: t else (a, b) :: insertA t k v

/-- Axis-aligned integer rectangle, as Go's image.Rectangle
(Min = (minX, minY), Max = (maxX, maxY), half-open). -/
structure Rect where
  minX : ℤ
  minY : ℤ
  maxX : ℤ
  maxY : ℤ
deriving DecidableEq

/-- Go's image.Rect constructor: swaps coordinates per axis so that
Min ≤ Max componentwise. -/
def mkRect (x0 y0 x1 y1 : ℤ) : Rect :=
  ⟨if x0 > x1 then x1 else x0, if y0 > y1 then y1 else y0,
   if x0 > x1 then x0 else x1, if y0 > y1 then y0 else y1⟩

def Rect.dx (r : Rect) : ℤ := r.maxX - r.minX

def Rect.dy (r : Rect) : ℤ := r.maxY - r.minY

/-- Go's image.Rectangle.Empty: reports whether the rectangle contains no
points. -/
def Rect.empt (r : Rect) : Bool := r.maxX ≤ r.minX || r.maxY ≤ r.minY

/-- Go's image.Rectangle.Overlaps. -/
def Rect.overlaps (r s : Rect) : Bool :=
  !r.empt && !s.empt &&
    decide (r.minX < s.maxX) && decide (s.minX < r.maxX) &&
    decide (r.minY < s.maxY) && decide (s.minY < r.maxY)

/-- Go's image.Point.In: membership of the point (x, y) in a rectangle. -/
def ptIn (x y : ℤ) (r : Rect) : Bool :=
  decide (r.minX ≤ x) && decide (x < r.maxX) && decide (r.minY ≤ y) && decide (y < r.maxY)

theorem Rect.overlaps_iff (r s : Rect) :
    r.overlaps s = true ↔
      (r.minX < r.maxX ∧ r.minY < r.maxY ∧ s.minX < s.maxX ∧ s.minY < s.maxY ∧
       r.minX < s.maxX ∧ s.minX < r.maxX ∧ r.minY < s.maxY ∧ s.minY < r.maxY) := by
  simp [Rect.overlaps, Rect.empt]
  omega

theorem Rect.overlaps_symm (r s : Rect) : r.overlaps s = s.overlaps r := by
  by_cases h : r.overlaps s = true
  · have h' := (Rect.overlaps_iff r s).mp h
    rw [h, Eq.comm, Rect.overlaps_iff]
    tauto
  · rw [Bool.not_eq_true] at h
    rw [h, Eq.comm, Bool.eq_false_iff]
    intro hc
    have h' := (Rect.overlaps_iff s r).mp hc
    rw [Bool.eq_false_iff] at h
    exact h (by rw [Rect.overlaps_iff]; tauto)

theorem ptIn_overlaps {x y : ℤ} {r s : Rect} (hr : ptIn x y r = true)
    (hs : ptIn x y s = true) : r.overlaps s = true := by
  simp [ptIn] at hr hs
  rw [Rect.overlaps_iff]
  omega

/-- The pixel-patch store restorable.rectToPixels: an association list from
rectangle to raw byte patch (Go map, keys unique by construction), plus the
most-recently-queried rectangle. The m field is an Option to model the Go
map being nil before the first addOrReplace. -/
structure RectToPixels where
  m : Option (List (Rect × List ℕ))
  last : Rect
deriving DecidableEq

/-- The zero value of rectToPixels (nil map, zero rectangle). -/
def rtpInit : RectToPixels := ⟨none, ⟨0, 0, 0, 0⟩⟩

/-- Scan loop of rectToPixels.addOrReplace: walk the stored entries; replace
the bytes of an identical rectangle, abort (none, modelling the Go panic) on
a different overlapping rectangle, otherwise add the new entry. -/
def addScan (l : List (Rect × List ℕ)) (newr : Rect) (copied : List ℕ) :
    Option (List (Rect × List ℕ)) :=
  match l with
  | [] => some [(newr, copied)]
  | (r, p) :: t =>
    if r = newr then some ((r, copied) :: t)
    else if r.overlaps newr then none
    else (addScan t newr copied).map (fun t' => (r, p) :: t')

/-- rectToPixels.addOrReplace. A none result models a Go panic: either the
byte-length contract violation or an overlapping non-identical rectangle.
The defensive copy of the caller's slice is the identity on the modelled
byte list. A panic unwinds before any store mutation, so no updated store
escapes on the none path, exactly as in the source where the length check
precedes every write. -/
def addOrReplace (rtp : RectToPixels) (pixels : List ℕ) (x y width height : ℤ) :
    Option RectToPixels :=
  if (pixels.length : ℤ) ≠ 4 * width * height then none
  else
    let m0 := rtp.m.getD []
    let newr := mkRect x y (x + width) (y + height)
    (addScan m0 newr pixels).map (fun l' => ⟨some l', rtp.last⟩)

/-- Removal loop of rectToPixels.remove: delete the entry whose rectangle is
exactly the given one; keep everything else. -/
def removeScan (l : List (Rect × List ℕ)) (newr : Rect) : List (Rect × List ℕ) :=
  match l with
  | [] => []
  | (r, p) :: t => if r = newr then t else (r, p) :: removeScan t newr

/-- rectToPixels.remove: no-op when the map is nil or no rectangle matches
exactly. The last-queried rectangle is left untouched, as in the source. -/
def removeRect (rtp : RectToPixels) (x y width height : ℤ) : RectToPixels :=
  match rtp.m with
  | none => rtp
  | some l => ⟨some (removeScan l (mkRect x y (x + width) (y + height))), rtp.last⟩

/-- Read of the four bytes of pixel (i, j) from the patch of rectangle r at
byte offset 4*((j-r.Min.Y)*r.Dx()+(i-r.Min.X)); none models the Go
index-out-of-range panic when the patch is too short (in particular when the
patch is the nil slice a Go map read returns for an absent key). -/
def readPix (pix : List ℕ) (r : Rect) (i j : ℤ) : Option (ℕ × ℕ × ℕ × ℕ) :=
  let idx : ℤ := 4 * ((j - r.minY) * r.dx + (i - r.minX))
  if 0 ≤ idx then
    match pix.get? idx.toNat, pix.get? (idx.toNat + 1),
          pix.get? (idx.toNat + 2), pix.get? (idx.toNat + 3) with
    | some b0, some b1, some b2, some b3 => some (b0, b1, b2, b3)
    | _, _, _, _ => none
  else none

/-- rectToPixels.at. Checks the last-queried rectangle first, then scans the
stored rectangles for one containing the point, caching a scan hit as last.
Returns the bytes together with found=true, or zeros with found=false; a
none result models a Go panic (indexing a missing patch). -/
def rtpAt (rtp : RectToPixels) (i j : ℤ) :
    Option ((ℕ × ℕ × ℕ × ℕ × Bool) × RectToPixels) :=
  match rtp.m with
  | none => some ((0, 0, 0, 0, false), rtp)
  | some l =>
    if ptIn i j rtp.last then
      (readPix ((lookupA l rtp.last).getD []) rtp.last i j).map
        (fun b => ((b.1, b.2.1, b.2.2.1, b.2.2.2, true), rtp))
    else
      match l.find? (fun e => ptIn i j e.1) with
      | some (rr, _) =>
        (readPix ((lookupA l rr).getD []) rr i j).map
          (fun b => ((b.1, b.2.1, b.2.2.1, b.2.2.2, true), ⟨some l, rr⟩))
      | none => some ((0, 0, 0, 0, false), rtp)

/-- States of a rectToPixels store reachable from its zero value by any
non-panicking sequence of addOrReplace, remove and at operations. -/
inductive Reachable : RectToPixels → Prop where
  | init : Reachable rtpInit
  | add {s s' : RectToPixels} {p : List ℕ} {x y w h : ℤ} :
      Reachable s → addOrReplace s p x y w h = some s' → Reachable s'
  | rem {s : RectToPixels} {x y w h : ℤ} :
      Reachable s → Reachable (removeRect s x y w h)
  | query {s s' : RectToPixels} {i j : ℤ} {out : ℕ × ℕ × ℕ × ℕ × Bool} :
      Reachable s → rtpAt s i j = some (out, s') → Reachable s'

/-- Store invariant: the stored rectangles are pairwise distinct and
pairwise non-overlapping. -/
def goodL (l : List (Rect × List ℕ)) : Prop :=
  l.Pairwise (fun a b => a.1 ≠ b.1 ∧ a.1.overlaps b.1 = false)

def rtpInv (rtp : RectToPixels) : Prop := goodL (rtp.m.getD [])

theorem ptIn_not_empt {x y : ℤ} {r : Rect} (h : ptIn x y r = true) : r.empt = false := by
  simp [ptIn] at h
  simp [Rect.empt]
  omega

theorem lookupA_mem {α β : Type} [DecidableEq α] {l : List (α × β)} {k : α} {v : β}
    (h : lookupA l k = some v) : (k, v) ∈ l := by
  induction l with
  | nil => simp [lookupA] at h
  | cons e t ih =>
    obtain ⟨a, b⟩ := e
    by_cases hak : a = k
    · subst hak
      simp [lookupA] at h
      simp [h]
    · simp [lookupA, hak] at h
      exact List.mem_cons_of_mem _ (ih h)

theorem addScan_mem {l : List (Rect × List ℕ)} {newr : Rect} {c : List ℕ}
    {l' : List (Rect × List ℕ)} (h : addScan l newr c = some l') :
    ∀ e ∈ l', (e.1 = newr ∧ e.2 = c) ∨ e ∈ l := by
  induction l generalizing l' with
  | nil =>
    simp [addScan] at h
    subst h
    simp
  | cons e0 t ih =>
    obtain ⟨r, p⟩ := e0
    by_cases hr : r = newr
    · subst hr
      simp [addScan] at h
      subst h
      intro e he
      rcases List.mem_cons.mp he with he1 | he1
      · subst he1; left; exact ⟨rfl, rfl⟩
      · right; exact List.mem_cons_of_mem _ he1
    · by_cases hov : r.overlaps newr = true
      · simp [addScan, hr, hov] at h
      · rw [Bool.not_eq_true] at hov
        simp [addScan, hr, hov] at h
        obtain ⟨t', ht', rfl⟩ := h
        intro e he
        rcases List.mem_cons.mp he with he1 | he1
        · subst he1; right; simp
        · rcases ih ht' e he1 with h1 | h1
          · left; exact h1
          · right; exact List.mem_cons_of_mem _ h1

theorem addScan_good {l : List (Rect × List ℕ)} {newr : Rect} {c : List ℕ}
    {l' : List (Rect × List ℕ)} (hg : goodL l) (h : addScan l newr c = some l') :
    goodL l' := by
  induction l generalizing l' with
  | nil =>
    simp [addScan] at h
    subst h
    simp [goodL]
  | cons e0 t ih =>
    obtain ⟨r, p⟩ := e0
    rw [goodL, List.pairwise_cons] at hg
    obtain ⟨hhead, htail⟩ := hg
    by_cases hr : r = newr
    · subst hr
      simp [addScan] at h
      subst h
      rw [goodL, List.pairwise_cons]
      exact ⟨fun b hb => hhead b hb, htail⟩
    · by_cases hov : r.overlaps newr = true
      · simp [addScan, hr, hov] at h
      · rw [Bool.not_eq_true] at hov
        simp [addScan, hr, hov] at h
        obtain ⟨t', ht', rfl⟩ := h
        rw [goodL, List.pairwise_cons]
        constructor
        · intro b hb
          rcases addScan_mem ht' b hb with ⟨hb1, _⟩ | hb1
          · exact ⟨fun hc => hr (hb1 ▸ hc), hb1 ▸ hov⟩
          · exact hhead b hb1
        · exact ih htail ht'

theorem addScan_lookup {l : List (Rect × List ℕ)} {newr : Rect} {c : List ℕ}
    {l' : List (Rect × List ℕ)} (h : addScan l newr c = some l') :
    lookupA l' newr = some c := by
  induction l generalizing l' with
  | nil =>
    simp [addScan] at h
    subst h
    simp [lookupA]
  | cons e0 t ih =>
    obtain ⟨r, p⟩ := e0
    by_cases hr : r = newr
    · simp [addScan, hr] at h
      subst h
      simp [lookupA, hr]
    · by_cases hov : r.overlaps newr = true
      · simp [addScan, hr, hov] at h
      · rw [Bool.not_eq_true] at hov
        simp [addScan, hr, hov] at h
        obtain ⟨t', ht', rfl⟩ := h
        simp [lookupA, hr]
        exact ih ht'

theorem addScan_keys_pres {l : List (Rect × List ℕ)} {newr : Rect} {c : List ℕ}
    {l' : List (Rect × List ℕ)} {k : Rect} {q : List ℕ}
    (hk : (k, q) ∈ l) (h : addScan l newr c = some l') :
    ∃ q', (k, q') ∈ l' := by
  induction l generalizing l' with
  | nil => simp at hk
  | cons e0 t ih =>
    obtain ⟨r, p⟩ := e0
    by_cases hr : r = newr
    · subst hr
      simp [addScan] at h
      subst h
      rcases List.mem_cons.mp hk with he | he
      · rw [Prod.ext_iff] at he
        exact ⟨c, by simp; exact Or.inl he.1⟩
      · exact ⟨q, List.mem_cons_of_mem _ he⟩
    · by_cases hov : r.overlaps newr = true
      · simp [addScan, hr, hov] at h
      · rw [Bool.not_eq_true] at hov
        simp [addScan, hr, hov] at h
        obtain ⟨t', ht', rfl⟩ := h
        rcases List.mem_cons.mp hk with he | he
        · rw [Prod.ext_iff] at he
          exact ⟨p, by simp; exact Or.inl he.1⟩
        · obtain ⟨q', hq'⟩ := ih he ht'
          exact ⟨q', List.mem_cons_of_mem _ hq'⟩

theorem goodL_symm : Symmetric (fun a b : Rect × List ℕ =>
    a.1 ≠ b.1 ∧ a.1.overlaps b.1 = false) := by
  rintro a b ⟨h1, h2⟩
  exact ⟨fun hc => h1 hc.symm, by rw [Rect.overlaps_symm]; exact h2⟩

theorem goodL_not_overlap {l : List (Rect × List ℕ)} {r1 r2 : Rect}
    {p1 p2 : List ℕ} (hg : goodL l) (h1 : (r1, p1) ∈ l) (h2 : (r2, p2) ∈ l)
    (hne : r1 ≠ r2) : r1.overlaps r2 = false := by
  have hforall := List.Pairwise.forall goodL_symm hg
  have : (r1, p1) ≠ (r2, p2) := by
    intro hc
    exact hne (congrArg Prod.fst hc)
  exact (hforall h1 h2 this).2

theorem addScan_replace {l : List (Rect × List ℕ)} {r0 : Rect} {p0 c : List ℕ}
    (hg : goodL l) (hmem : (r0, p0) ∈ l) :
    ∃ l', addScan l r0 c = some l' ∧ lookupA l' r0 = some c ∧
      ∀ k, k ≠ r0 → lookupA l' k = lookupA l k := by
  induction l with
  | nil => simp at hmem
  | cons e0 t ih =>
    obtain ⟨r, p⟩ := e0
    rw [goodL, List.pairwise_cons] at hg
    obtain ⟨hhead, htail⟩ := hg
    by_cases hr : r = r0
    · subst hr
      refine ⟨(r, c) :: t, by simp [addScan], by simp [lookupA], ?_⟩
      intro k hk
      have hrk : r ≠ k := fun hc => hk hc.symm
      simp [lookupA, hrk]
    · have hmem' : (r0, p0) ∈ t := by
        rcases List.mem_cons.mp hmem with he | he
        · rw [Prod.ext_iff] at he
          exact absurd he.1.symm hr
        · exact he
      have hrel := hhead _ hmem'
      have hov : r.overlaps r0 = false := hrel.2
      obtain ⟨t', ht', hlook, hpres⟩ := ih htail hmem'
      refine ⟨(r, p) :: t', by simp [addScan, hr, hov, ht'], ?_, ?_⟩
      · simp [lookupA, hr]
        exact hlook
      · intro k hk
        by_cases hrk : r = k
        · simp [lookupA, hrk]
        · simp [lookupA, hrk]
          exact hpres k hk

theorem addScan_fatal {l : List (Rect × List ℕ)} {r1 : Rect} {p1 : List ℕ}
    {newr : Rect} {c : List ℕ} (hg : goodL l) (hmem : (r1, p1) ∈ l)
    (hov : r1.overlaps newr = true) (hne : r1 ≠ newr) :
    addScan l newr c = none := by
  induction l with
  | nil => simp at hmem
  | cons e0 t ih =>
    obtain ⟨r, p⟩ := e0
    rw [goodL, List.pairwise_cons] at hg
    obtain ⟨hhead, htail⟩ := hg
    by_cases hr : r = newr
    · subst hr
      exfalso
      have hmem' : (r1, p1) ∈ t := by
        rcases List.mem_cons.mp hmem with he | he
        · rw [Prod.ext_iff] at he
          exact absurd he.1 hne
        · exact he
      have := (hhead _ hmem').2
      rw [Rect.overlaps_symm] at hov
      rw [hov] at this
      exact Bool.true_eq_false.mp this
    · by_cases hrov : r.overlaps newr = true
      · simp [addScan, hr, hrov]
      · have hmem' : (r1, p1) ∈ t := by
          rcases List.mem_cons.mp hmem with he | he
          · rw [Prod.ext_iff] at he
            exfalso
            have hr1r : r1 = r := he.1
            rw [hr1r] at hov
            exact hrov hov
          · exact he
        rw [Bool.not_eq_true] at hrov
        simp [addScan, hr, hrov]
        exact ih htail hmem'

theorem removeScan_sublist (l : List (Rect × List ℕ)) (newr : Rect) :
    (removeScan l newr).Sublist l := by
  induction l with
  | nil => simp [removeScan]
  | cons e0 t ih =>
    obtain ⟨r, p⟩ := e0
    by_cases hr : r = newr
    · simp [removeScan, hr]
    · simp only [removeScan, if_neg hr]
      exact ih.cons₂ _

/-- Every store state reachable by addOrReplace, remove and at operations
satisfies the pairwise-distinct, pairwise-non-overlapping invariant on its
stored rectangles. -/
theorem reachable_inv {s : RectToPixels} (h : Reachable s) : rtpInv s := by
  induction h with
  | init => simp [rtpInv, rtpInit, goodL]
  | add hr hadd ih =>
    rw [addOrReplace] at hadd
    split at hadd
    · simp at hadd
    · rw [Option.map_eq_some'] at hadd
      obtain ⟨l', hl', rfl⟩ := hadd
      exact addScan_good ih hl'
  | rem hr ih =>
    rename_i s x y w h
    cases hs : s.m with
    | none => simpa [rtpInv, removeRect, hs] using ih
    | some l =>
      simp only [rtpInv, hs, Option.getD_some] at ih
      simp only [rtpInv, removeRect, hs, Option.getD_some]
      exact List.Pairwise.sublist (removeScan_sublist l _) ih
  | query hr hat ih =>
    rename_i s s' i j out
    cases hs : s.m with
    | none =>
      simp only [rtpAt, hs, Option.some.injEq, Prod.mk.injEq] at hat
      obtain ⟨-, rfl⟩ := hat
      exact ih
    | some l =>
      simp only [rtpInv, hs, Option.getD_some] at ih
      simp only [rtpAt, hs] at hat
      split at hat
      · rw [Option.map_eq_some'] at hat
        obtain ⟨b, -, heq⟩ := hat
        rw [Prod.mk.injEq] at heq
        obtain ⟨-, rfl⟩ := heq
        simp only [rtpInv, hs, Option.getD_some]
        exact ih
      · split at hat
        · rw [Option.map_eq_some'] at hat
          obtain ⟨b, -, heq⟩ := hat
          rw [Prod.mk.injEq] at heq
          obtain ⟨-, rfl⟩ := heq
          simp only [rtpInv, Option.getD_some]
          exact ih
        · simp only [Option.some.injEq, Prod.mk.injEq] at hat
          obtain ⟨-, rfl⟩ := hat
          simp only [rtpInv, hs, Option.getD_some]
          exact ih

/-- C5 claim, as stated. Part one: every state reachable by a non-panicking
sequence of store operations has pairwise distinct, pairwise non-overlapping
rectangles. Part two: addOrReplace with a rectangle identical to a stored one
succeeds and replaces exactly that rectangle's bytes. Part three: addOrReplace
with a rectangle that overlaps a different stored rectangle panics (none). -/
theorem C5_nonoverlap_replace_fatal :
    (∀ s : RectToPixels, Reachable s →
      (s.m.getD []).Pairwise (fun a b => a.1 ≠ b.1 ∧ a.1.overlaps b.1 = false))
    ∧ (∀ (s : RectToPixels) (pixels p0 : List ℕ) (x y width height : ℤ),
        rtpInv s → (mkRect x y (x + width) (y + height), p0) ∈ s.m.getD [] →
        (pixels.length : ℤ) = 4 * width * height →
        (addOrReplace s pixels x y width height).isSome = true ∧
        ∀ l', addOrReplace s pixels x y width height = some ⟨some l', s.last⟩ →
          lookupA l' (mkRect x y (x + width) (y + height)) = some pixels ∧
          ∀ k, k ≠ mkRect x y (x + width) (y + height) →
            lookupA l' k = lookupA (s.m.getD []) k)
    ∧ (∀ (s : RectToPixels) (pixels p1 : List ℕ) (r1 : Rect) (x y width height : ℤ),
        rtpInv s → (r1, p1) ∈ s.m.getD [] →
        r1.overlaps (mkRect x y (x + width) (y + height)) = true →
        r1 ≠ mkRect x y (x + width) (y + height) →
        addOrReplace s pixels x y width height = none) := by
  refine ⟨fun s hs => reachable_inv hs, ?_, ?_⟩
  · intro s pixels p0 x y width height hinv hmem hlen
    obtain ⟨l0, hl0, hlook, hpres⟩ := addScan_replace (c := pixels) hinv hmem
    have hres : addOrReplace s pixels x y width height = some ⟨some l0, s.last⟩ := by
      rw [addOrReplace, if_neg (by rw [hlen]; simp)]
      simp only [hl0, Option.map_some']
    refine ⟨by rw [hres]; rfl, ?_⟩
    intro l' hl'
    rw [hres] at hl'
    simp only [Option.some.injEq, RectToPixels.mk.injEq] at hl'
    obtain ⟨hl1, -⟩ := hl'
    subst hl1
    exact ⟨hlook, hpres⟩
  · intro s pixels p1 r1 x y width height hinv hmem hov hne
    rw [addOrReplace]
    split
    · rfl
    · simp [addScan_fatal hinv hmem hov hne]

/-- C5 witness: on the concrete store holding the single rectangle (0,0)-(1,1),
the invariant holds, replacing that rectangle succeeds, and adding the
overlapping rectangle (0,0)-(2,2) is fatal. -/
theorem C5_nonoverlap_replace_fatal_witness :
    (((⟨some [(⟨0, 0, 1, 1⟩, [5, 6, 7, 8])], ⟨0, 0, 0, 0⟩⟩ : RectToPixels).m.getD
        []).Pairwise (fun a b => a.1 ≠ b.1 ∧ a.1.overlaps b.1 = false))
    ∧ (addOrReplace ⟨some [(⟨0, 0, 1, 1⟩, [5, 6, 7, 8])], ⟨0, 0, 0, 0⟩⟩
        [1, 2, 3, 4] 0 0 1 1).isSome = true
    ∧ addOrReplace ⟨some [(⟨0, 0, 1, 1⟩, [5, 6, 7, 8])], ⟨0, 0, 0, 0⟩⟩
        [9, 9, 9, 9, 9, 9, 9, 9, 9, 9, 9, 9, 9, 9, 9, 9] 0 0 2 2 = none := by
  refine ⟨?_, ?_, ?_⟩
  · refine C5_nonoverlap_replace_fatal.1 _ (Reachable.add (p := [5, 6, 7, 8])
      (x := 0) (y := 0) (w := 1) (h := 1) Reachable.init ?_)
    decide
  · refine (C5_nonoverlap_replace_fatal.2.1 _ [1, 2, 3, 4] [5, 6, 7, 8] 0 0 1 1
      ?_ ?_ ?_).1
    · simp [rtpInv, goodL]
    · decide
    · decide
  · refine C5_nonoverlap_replace_fatal.2.2 _ _ [5, 6, 7, 8] ⟨0, 0, 1, 1⟩ 0 0 2 2
      ?_ ?_ ?_ ?_
    · simp [rtpInv, goodL]
    · decide
    · decide
    · decide

/-- C9 claim: addOrReplace with a patch whose byte length differs from
4*width*height always panics (none result); in the source the length check is
the first statement of the function, before any store mutation, so the store
is untouched, which the pure model renders by returning no updated store. -/
theorem C9_bad_length_fatal (s : RectToPixels) (pixels : List ℕ)
    (x y width height : ℤ) (h : (pixels.length : ℤ) ≠ 4 * width * height) :
    addOrReplace s pixels x y width height = none := by
  rw [addOrReplace, if_pos h]

/-- C9 witness: a three-byte patch for a 1x1 rectangle is rejected. -/
theorem C9_bad_length_fatal_witness :
    ((([1, 2, 3] : List ℕ).length : ℤ) ≠ 4 * 1 * 1) ∧
    addOrReplace rtpInit [1, 2, 3] 0 0 1 1 = none :=
  ⟨by decide, C9_bad_length_fatal rtpInit [1, 2, 3] 0 0 1 1 (by decide)⟩

/-- Concrete operation chain for C4: add the 1x1 rectangle at (0,0), query it
(which caches it as the last-queried rectangle), then remove it. The result is
the store state after that chain. -/
def c4state : Option RectToPixels :=
  (addOrReplace rtpInit [1, 2, 3, 4] 0 0 1 1).bind (fun s1 =>
    (rtpAt s1 0 0).map (fun q => removeRect q.2 0 0 1 1))

/-- C4 claim evaluated at its failing input: after add, at, remove, the store
holds no rectangles (so the point (0,0) is contained in no stored rectangle),
yet at(0,0) hits the stale last-queried rectangle, reads the removed entry's
missing patch, and panics (none) instead of returning found=false. -/
theorem C4_stale_last_cache_panics :
    c4state = some ⟨some [], ⟨0, 0, 1, 1⟩⟩ ∧
    c4state.bind (fun s3 => rtpAt s3 0 0) = none := by
  constructor
  · decide
  · decide

theorem get?_eq_some_getD {l : List ℕ} {n : ℕ} (h : n < l.length) :
    l.get? n = some (l.getD n 0) := by
  cases hg : l.get? n with
  | none => exact absurd (List.get?_eq_none.mp hg) (by omega)
  | some v =>
    rw [List.getD_eq_getElem?_getD, ← List.get?_eq_getElem?, hg]
    rfl

theorem find?_eq_entry {l : List (Rect × List ℕ)} {newr : Rect} {c : List ℕ}
    {i j : ℤ} (hlook : lookupA l newr = some c) (hpt : ptIn i j newr = true)
    (hothers : ∀ e ∈ l, e.1 ≠ newr → ptIn i j e.1 = false) :
    l.find? (fun e => ptIn i j e.1) = some (newr, c) := by
  induction l with
  | nil => simp [lookupA] at hlook
  | cons e0 t ih =>
    obtain ⟨r, p⟩ := e0
    by_cases hr : r = newr
    · subst hr
      have hp : p = c := by simpa [lookupA] using hlook
      subst hp
      exact List.find?_cons_of_pos _ hpt
    · have hpr : ptIn i j r = false := hothers (r, p) (by simp) hr
      rw [List.find?_cons_of_neg _ (by simp [hpr])]
      simp only [lookupA, if_neg hr] at hlook
      exact ih hlook (fun e he hne => hothers e (List.mem_cons_of_mem _ he) hne)

/-- Health condition on the last-queried-rectangle cache: it refers to a
rectangle that is currently stored, or it is an empty rectangle (such as its
initial zero value), so it can never be hit by a point query. The source
never invalidates this cache on removal, which is exactly what breaks the
round-trip claim (see the C7 counterexample). -/
def goodLast (s : RectToPixels) : Prop :=
  ((s.m.getD []).any (fun e => decide (e.1 = s.last))) = true ∨ s.last.empt = true

/-- Concrete operation chain for C7's counterexample: add the 1x1 rectangle at
(0,0), query it (caching it as last), remove it, then add the different,
overlapping 2x2 rectangle at (0,0) — which succeeds, since the store is empty
again. -/
def c7state : Option RectToPixels :=
  ((addOrReplace rtpInit [1, 2, 3, 4] 0 0 1 1).bind (fun s1 =>
    (rtpAt s1 0 0).map (fun q => removeRect q.2 0 0 1 1))).bind
    (fun s3 => addOrReplace s3 [9, 9, 9, 9, 9, 9, 9, 9, 9, 9, 9, 9, 9, 9, 9, 9] 0 0 2 2)

/-- C7 counterexample: a reachable store state on which addOrReplace succeeds
for the rectangle (0,0)-(2,2), yet the immediately following at(0,0) — a pixel
inside the written rectangle — panics (none) instead of returning the supplied
bytes, because the stale last-queried rectangle (0,0)-(1,1) still contains the
point but is no longer stored. -/
theorem C7_roundtrip_cex :
    c7state.isSome = true ∧ c7state.bind (fun s => rtpAt s 0 0) = none := by
  constructor
  · decide
  · decide

/-- C7 claim, amended with the cache-health side condition goodLast forced by
the counterexample: on an invariant-satisfying store whose last-queried cache
is healthy, a successful addOrReplace followed by at on any pixel inside the
written rectangle returns found=true and exactly the four patch bytes at
offset 4*((j-y)*width+(i-x)). -/
theorem C7_roundtrip_amended (s s' : RectToPixels) (pixels : List ℕ)
    (x y width height i j : ℤ)
    (hinv : rtpInv s) (hlast : goodLast s)
    (hadd : addOrReplace s pixels x y width height = some s')
    (hi : x ≤ i ∧ i < x + width) (hj : y ≤ j ∧ j < y + height) :
    rtpAt s' i j = some
      ((pixels.getD (4 * ((j - y) * width + (i - x))).toNat 0,
        pixels.getD ((4 * ((j - y) * width + (i - x))).toNat + 1) 0,
        pixels.getD ((4 * ((j - y) * width + (i - x))).toNat + 2) 0,
        pixels.getD ((4 * ((j - y) * width + (i - x))).toNat + 3) 0, true),
       ⟨s'.m, mkRect x y (x + width) (y + height)⟩) := by
  have hw : 0 < width := by omega
  have hh : 0 < height := by omega
  rw [addOrReplace] at hadd
  split at hadd
  · simp at hadd
  · rename_i hlen
    rw [not_not] at hlen
    rw [Option.map_eq_some'] at hadd
    obtain ⟨l', haddscan, rfl⟩ := hadd
    have hnewr : mkRect x y (x + width) (y + height) = ⟨x, y, x + width, y + height⟩ := by
      simp [mkRect]
      omega
    rw [hnewr] at haddscan
    have hlookup : lookupA l' ⟨x, y, x + width, y + height⟩ = some pixels :=
      addScan_lookup haddscan
    have hmemnewr : (Rect.mk x y (x + width) (y + height), pixels) ∈ l' :=
      lookupA_mem hlookup
    have hgood' : goodL l' := addScan_good hinv haddscan
    have hptin : ptIn i j ⟨x, y, x + width, y + height⟩ = true := by
      simp [ptIn]
      omega
    -- index arithmetic
    have hA : 0 ≤ (j - y) * width := mul_nonneg (by omega) (by omega)
    have hidx0 : 0 ≤ 4 * ((j - y) * width + (i - x)) := by nlinarith
    have hA2 : (j - y) * width ≤ (height - 1) * width :=
      mul_le_mul_of_nonneg_right (by omega) (by omega)
    have hidxlen : 4 * ((j - y) * width + (i - x)) + 4 ≤ (pixels.length : ℤ) := by
      rw [hlen]
      nlinarith
    obtain ⟨k, hk⟩ : ∃ k : ℕ, 4 * ((j - y) * width + (i - x)) = (k : ℤ) :=
      ⟨(4 * ((j - y) * width + (i - x))).toNat, (Int.toNat_of_nonneg hidx0).symm⟩
    have hkto : (4 * ((j - y) * width + (i - x))).toNat = k := by
      rw [hk]; exact Int.toNat_natCast k
    have hklen : k + 4 ≤ pixels.length := by
      rw [hk] at hidxlen
      exact_mod_cast hidxlen
    have hread : readPix pixels ⟨x, y, x + width, y + height⟩ i j =
        some (pixels.getD k 0, pixels.getD (k + 1) 0,
              pixels.getD (k + 2) 0, pixels.getD (k + 3) 0) := by
      rw [readPix]
      simp only [Rect.dx]
      have harg : 4 * ((j - y) * (x + width - x) + (i - x)) =
          4 * ((j - y) * width + (i - x)) := by ring_nf
      rw [harg, if_pos hidx0, hkto]
      rw [get?_eq_some_getD (by omega), get?_eq_some_getD (by omega),
        get?_eq_some_getD (by omega), get?_eq_some_getD (by omega)]
    -- the new rectangle is the unique stored rectangle containing (i, j)
    have hunique : ∀ e ∈ l', e.1 ≠ Rect.mk x y (x + width) (y + height) →
        ptIn i j e.1 = false := by
      intro e he hne
      by_contra hc
      rw [Bool.not_eq_false] at hc
      have hov := ptIn_overlaps hc hptin
      obtain ⟨e1, e2⟩ := e
      have := goodL_not_overlap hgood' he hmemnewr hne
      rw [this] at hov
      exact Bool.true_eq_false.mp hov.symm
    by_cases hlastpt : ptIn i j s.last = true
    · -- the stale-cache branch: by goodLast the cache must be the new rectangle
      have hlaststored : ∃ q0, (s.last, q0) ∈ s.m.getD [] := by
        rcases hlast with hany | hempt
        · rw [List.any_eq_true] at hany
          obtain ⟨e, he, heq⟩ := hany
          rw [decide_eq_true_eq] at heq
          exact ⟨e.2, heq ▸ he⟩
        · rw [ptIn_not_empt hlastpt] at hempt
          exact absurd hempt (by simp)
      obtain ⟨q0, hq0⟩ := hlaststored
      obtain ⟨q', hq'⟩ := addScan_keys_pres hq0 haddscan
      have hlasteq : s.last = Rect.mk x y (x + width) (y + height) := by
        by_contra hne
        have := goodL_not_overlap hgood' hq' hmemnewr hne
        have hov := ptIn_overlaps hlastpt hptin
        rw [this] at hov
        exact Bool.true_eq_false.mp hov.symm
      simp only [rtpAt, hlasteq, hnewr, hptin, if_pos, hlookup, Option.getD_some,
        hread, Option.map_some']
      rw [hkto]
    · -- the scan branch
      rw [Bool.not_eq_true] at hlastpt
      have hfind : l'.find? (fun e => ptIn i j e.1) =
          some (Rect.mk x y (x + width) (y + height), pixels) :=
        find?_eq_entry hlookup hptin hunique
      simp only [rtpAt, hlastpt, Bool.false_eq_true, if_neg, hfind, hlookup,
        Option.getD_some, hread, Option.map_some', hnewr]
      simp [hkto]

/-- C7 witness: writing the four bytes 1,2,3,4 as the 1x1 rectangle at (0,0)
into the fresh store and immediately querying (0,0) returns exactly those
bytes with found=true. -/
theorem C7_roundtrip_amended_witness :
    addOrReplace rtpInit [1, 2, 3, 4] 0 0 1 1 =
      some ⟨some [(⟨0, 0, 1, 1⟩, [1, 2, 3, 4])], ⟨0, 0, 0, 0⟩⟩ ∧
    rtpAt ⟨some [(⟨0, 0, 1, 1⟩, [1, 2, 3, 4])], ⟨0, 0, 0, 0⟩⟩ 0 0 =
      some ((1, 2, 3, 4, true), ⟨some [(⟨0, 0, 1, 1⟩, [1, 2, 3, 4])], ⟨0, 0, 1, 1⟩⟩) := by
  constructor
  · decide
  · have h := C7_roundtrip_amended rtpInit
      ⟨some [(⟨0, 0, 1, 1⟩, [1, 2, 3, 4])], ⟨0, 0, 0, 0⟩⟩
      [1, 2, 3, 4] 0 0 1 1 0 0 (by simp [rtpInv, rtpInit, goodL])
      (Or.inr (by decide)) (by decide) (by constructor <;> decide)
      (by constructor <;> decide)
    simpa using h

/-- Positive-level loop of sizeForLevel: halve both dimensions once per step
(Go integer division truncates toward zero, Int.tdiv), returning (0, 0) as
soon as either axis reaches 0. -/
def halveLoop (w h : ℤ) : ℕ → ℤ × ℤ
  | 0 => (w, h)
  | n + 1 =>
    let w' := w.tdiv 2
    let h' := h.tdiv 2
    if w' = 0 ∨ h' = 0 then (0, 0) else halveLoop w' h' n

/-- Negative-level loop of sizeForLevel: double both dimensions once per step. -/
def doubleLoop (w h : ℤ) : ℕ → ℤ × ℤ
  | 0 => (w, h)
  | n + 1 => doubleLoop (w * 2) (h * 2) n

/-- Go sizeForLevel(origWidth, origHeight, level): scaled size of the image at
the given mipmap level. -/
def sizeForLevel (origWidth origHeight level : ℤ) : ℤ × ℤ :=
  if 0 < level then halveLoop origWidth origHeight level.toNat
  else doubleLoop origWidth origHeight (-level).toNat

/-- One halving step as observed at the end of the loop, for the snoc form of
the recursion. -/
def halveStep (p : ℤ × ℤ) : ℤ × ℤ :=
  if p.1.tdiv 2 = 0 ∨ p.2.tdiv 2 = 0 then (0, 0) else (p.1.tdiv 2, p.2.tdiv 2)

theorem halveLoop_succ (w h : ℤ) (n : ℕ) :
    halveLoop w h (n + 1) = halveStep (halveLoop w h n) := by
  induction n generalizing w h with
  | zero => rfl
  | succ n ih =>
    rw [show halveLoop w h (n + 1 + 1) =
      (if w.tdiv 2 = 0 ∨ h.tdiv 2 = 0 then (0, 0)
       else halveLoop (w.tdiv 2) (h.tdiv 2) (n + 1)) from rfl]
    rw [show halveLoop w h (n + 1) =
      (if w.tdiv 2 = 0 ∨ h.tdiv 2 = 0 then (0, 0)
       else halveLoop (w.tdiv 2) (h.tdiv 2) n) from rfl]
    split
    · rw [halveStep]
      norm_num
    · exact ih _ _

theorem doubleLoop_succ (w h : ℤ) (n : ℕ) :
    doubleLoop w h (n + 1) = ((doubleLoop w h n).1 * 2, (doubleLoop w h n).2 * 2) := by
  induction n generalizing w h with
  | zero => rfl
  | succ n ih =>
    rw [show doubleLoop w h (n + 1 + 1) = doubleLoop (w * 2) (h * 2) (n + 1) from rfl]
    rw [show doubleLoop w h (n + 1) = doubleLoop (w * 2) (h * 2) n from rfl]
    exact ih _ _

/-- C8 claim: sizeForLevel halves both dimensions once per positive level step
(collapsing to (0, 0) as soon as either axis reaches 0, and staying there),
doubles both dimensions once per negative level step, and satisfies the three
quoted examples. -/
theorem C8_sizeForLevel_spec :
    (∀ w h level : ℤ, 0 < level →
      sizeForLevel w h level = halveStep (sizeForLevel w h (level - 1)))
    ∧ (∀ w h level : ℤ, level ≤ 0 →
      sizeForLevel w h (level - 1) =
        ((sizeForLevel w h level).1 * 2, (sizeForLevel w h level).2 * 2))
    ∧ sizeForLevel 100 50 2 = (25, 12)
    ∧ sizeForLevel 100 50 (-1) = (200, 100)
    ∧ sizeForLevel 3 3 2 = (0, 0) := by
  refine ⟨?_, ?_, by decide, by decide, by decide⟩
  · intro w h level hpos
    rw [sizeForLevel, if_pos hpos, sizeForLevel]
    by_cases h1 : level = 1
    · subst h1
      norm_num
      exact halveLoop_succ w h 0
    · rw [if_pos (by omega)]
      rw [show level.toNat = (level - 1).toNat + 1 by omega, halveLoop_succ]
  · intro w h level hneg
    rw [sizeForLevel, if_neg (by omega), sizeForLevel, if_neg (by omega)]
    rw [show (-(level - 1)).toNat = (-level).toNat + 1 by omega, doubleLoop_succ]

/-- C8 witness: the step characterizations applied at concrete inputs
(level 2 from level 1 for 100x50, and level -1 from level 0 for 100x50). -/
theorem C8_sizeForLevel_spec_witness :
    sizeForLevel 100 50 2 = halveStep (sizeForLevel 100 50 1) ∧
    sizeForLevel 100 50 (-1) =
      ((sizeForLevel 100 50 0).1 * 2, (sizeForLevel 100 50 0).2 * 2) :=
  ⟨C8_sizeForLevel_spec.1 100 50 2 (by decide),
   by
    have := C8_sizeForLevel_spec.2.1 100 50 0 (by decide)
    simpa using this⟩

/-- Loop of mipmapLevelForDownscale on the absolute determinant d: while
d < 0.25, increment the level and multiply d by 4. Multiplication of a float
by 4 and comparison against 0.25 are exact, so the rational semantics agrees
with the float loop. The 0 < d conjunct in the guard records the positivity
of d (guaranteed by the caller, which panics on det = 0) on which the Go
loop's termination relies; for d ≤ 0 the Go loop would not run anyway when
d ≥ 0.25 ≥ 0 fails, matching the else branch. -/
def downscaleSteps (d : ℚ) : ℕ :=
  if h : 0 < d ∧ d < 1 / 4 then downscaleSteps (4 * d) + 1 else 0
termination_by (⌊d⁻¹⌋).toNat
decreasing_by
  obtain ⟨h0, h14⟩ := h
  have hx : (4 : ℚ) < d⁻¹ := by
    rw [show (d⁻¹ : ℚ) = 1 / d from (one_div d).symm, lt_div_iff₀ h0]
    linarith
  have hinv4 : (4 * d)⁻¹ = d⁻¹ / 4 := by
    rw [mul_inv]
    ring
  have hfl1 : (⌊d⁻¹ / 4⌋ : ℚ) ≤ d⁻¹ / 4 := Int.floor_le _
  have hfl2 : d⁻¹ - 1 < (⌊d⁻¹⌋ : ℚ) := Int.sub_one_lt_floor _
  have hlt : ⌊d⁻¹ / 4⌋ < ⌊d⁻¹⌋ := by
    have hq : (⌊d⁻¹ / 4⌋ : ℚ) < (⌊d⁻¹⌋ : ℚ) := by linarith
    exact_mod_cast hq
  have hge : (4 : ℤ) ≤ ⌊d⁻¹⌋ := by
    rw [Int.le_floor]
    push_cast
    linarith
  rw [hinv4]
  omega

theorem downscaleSteps_base {d : ℚ} (h : ¬(0 < d ∧ d < 1 / 4)) :
    downscaleSteps d = 0 := by
  rw [downscaleSteps, dif_neg h]

theorem downscaleSteps_step {d : ℚ} (h0 : 0 < d) (h14 : d < 1 / 4) :
    downscaleSteps d = downscaleSteps (4 * d) + 1 := by
  rw [downscaleSteps, dif_pos ⟨h0, h14⟩]

theorem downscaleSteps_le_iff {d : ℚ} (hd : 0 < d) (k : ℕ) :
    downscaleSteps d ≤ k ↔ 1 / 4 ≤ 4 ^ k * d := by
  induction k generalizing d with
  | zero =>
    by_cases h14 : d < 1 / 4
    · rw [downscaleSteps_step hd h14]
      simp only [pow_zero, one_mul]
      constructor
      · omega
      · intro hc; linarith
    · rw [downscaleSteps_base (by tauto)]
      simp only [pow_zero, one_mul]
      constructor
      · intro _; linarith
      · intro _; omega
  | succ k ih =>
    by_cases h14 : d < 1 / 4
    · rw [downscaleSteps_step hd h14]
      have h4d : (0 : ℚ) < 4 * d := by linarith
      rw [show downscaleSteps (4 * d) + 1 ≤ k + 1 ↔ downscaleSteps (4 * d) ≤ k by omega]
      rw [ih h4d]
      constructor
      · intro hc
        calc (1 : ℚ) / 4 ≤ 4 ^ k * (4 * d) := hc
        _ = 4 ^ (k + 1) * d := by ring
      · intro hc
        calc (1 : ℚ) / 4 ≤ 4 ^ (k + 1) * d := hc
        _ = 4 ^ k * (4 * d) := by ring
    · rw [downscaleSteps_base (by tauto)]
      constructor
      · intro _
        have hd14 : 1 / 4 ≤ d := by linarith
        calc (1 : ℚ) / 4 ≤ d := hd14
        _ = 1 * d := (one_mul d).symm
        _ ≤ 4 ^ (k + 1) * d := by
          apply mul_le_mul_of_nonneg_right _ (le_of_lt hd)
          exact one_le_pow₀ (by norm_num)
      · intro _; omega

theorem downscaleSteps_anti {d1 d2 : ℚ} (h1 : 0 < d1) (h12 : d1 ≤ d2) :
    downscaleSteps d2 ≤ downscaleSteps d1 := by
  rw [downscaleSteps_le_iff (lt_of_lt_of_le h1 h12)]
  have hk := (downscaleSteps_le_iff h1 (downscaleSteps d1)).mp le_rfl
  calc (1 : ℚ) / 4 ≤ 4 ^ downscaleSteps d1 * d1 := hk
  _ ≤ 4 ^ downscaleSteps d1 * d2 :=
    mul_le_mul_of_nonneg_left h12 (by positivity)

/-- Go mipmapLevelForDownscale. The float32 determinant is modelled as an
Option ℚ whose none alternative is NaN; a none result models the Go panic on
a NaN or zero determinant. The loop on the absolute value is downscaleSteps. -/
def mipmapLevelForDownscale (det : Option ℚ) : Option ℤ :=
  match det with
  | none => none
  | some det => if det = 0 then none else some ((downscaleSteps |det| : ℕ) : ℤ)

theorem mipmapLevelForDownscale_eval {d : ℚ} (hd : d ≠ 0) :
    mipmapLevelForDownscale (some d) = some ((downscaleSteps |d| : ℕ) : ℤ) := by
  rw [mipmapLevelForDownscale, if_neg hd]

/-- C2 counterexample: the code maps determinant 0.003 to level 4, not to the
claimed level 3 (0.003 * 4^3 = 0.192 is still below 0.25, so the loop runs a
fourth time; the float32 rounding of 0.003 does not change this). -/
theorem C2_downscale_cex :
    mipmapLevelForDownscale (some (3 / 1000)) = some 4 ∧ (4 : ℤ) ≠ 3 := by
  constructor
  · rw [mipmapLevelForDownscale_eval (by norm_num)]
    rw [show |(3 : ℚ) / 1000| = 3 / 1000 by norm_num]
    rw [downscaleSteps_step (by norm_num) (by norm_num)]
    rw [show (4 : ℚ) * (3 / 1000) = 3 / 250 by norm_num]
    rw [downscaleSteps_step (by norm_num) (by norm_num)]
    rw [show (4 : ℚ) * (3 / 250) = 6 / 125 by norm_num]
    rw [downscaleSteps_step (by norm_num) (by norm_num)]
    rw [show (4 : ℚ) * (6 / 125) = 24 / 125 by norm_num]
    rw [downscaleSteps_step (by norm_num) (by norm_num)]
    rw [show (4 : ℚ) * (24 / 125) = 96 / 125 by norm_num]
    rw [downscaleSteps_base (by norm_num)]
    norm_num
  · decide

/-- C2 claim, amended in its last example as forced by the counterexample
(det = 0.003 gives level 4, not 3): mipmapLevelForDownscale is monotonically
non-decreasing as the absolute determinant shrinks, is computed by starting at
level 0 and, while the absolute determinant is below 0.25, incrementing the
level and multiplying the determinant by 4, and maps 1.0 to level 0, 0.2 to
level 1, 0.05 to level 2 and 0.003 to level 4. -/
theorem C2_downscale_levels :
    (∀ (d1 d2 : ℚ) (L1 L2 : ℤ), d1 ≠ 0 → |d1| ≤ |d2| →
      mipmapLevelForDownscale (some d1) = some L1 →
      mipmapLevelForDownscale (some d2) = some L2 → L2 ≤ L1)
    ∧ (∀ d : ℚ, d ≠ 0 →
        (1 / 4 ≤ |d| → mipmapLevelForDownscale (some d) = some 0)
        ∧ (|d| < 1 / 4 → mipmapLevelForDownscale (some d) =
            (mipmapLevelForDownscale (some (4 * d))).map (fun L => L + 1)))
    ∧ mipmapLevelForDownscale (some 1) = some 0
    ∧ mipmapLevelForDownscale (some (1 / 5)) = some 1
    ∧ mipmapLevelForDownscale (some (1 / 20)) = some 2
    ∧ mipmapLevelForDownscale (some (3 / 1000)) = some 4 := by
  refine ⟨?_, ?_, ?_, ?_, ?_, ?_⟩
  · intro d1 d2 L1 L2 hd1 h12 hL1 hL2
    have hd2 : d2 ≠ 0 := by
      intro hc
      subst hc
      simp [mipmapLevelForDownscale] at hL2
    rw [mipmapLevelForDownscale_eval hd1] at hL1
    rw [mipmapLevelForDownscale_eval hd2] at hL2
    have habs1 : (0 : ℚ) < |d1| := abs_pos.mpr hd1
    have := downscaleSteps_anti habs1 h12
    simp only [Option.some.injEq] at hL1 hL2
    subst hL1
    subst hL2
    exact_mod_cast this
  · intro d hd
    have habs : (0 : ℚ) < |d| := abs_pos.mpr hd
    constructor
    · intro hge
      rw [mipmapLevelForDownscale_eval hd,
        downscaleSteps_base (by rw [not_and_or]; right; linarith)]
      norm_num
    · intro hlt
      have h4d : (4 : ℚ) * d ≠ 0 := by
        intro hc
        exact hd (by linarith [mul_eq_zero.mp hc.symm.symm])
      rw [mipmapLevelForDownscale_eval hd, mipmapLevelForDownscale_eval h4d]
      rw [downscaleSteps_step habs hlt]
      rw [show |(4 : ℚ) * d| = 4 * |d| by rw [abs_mul]; norm_num]
      simp only [Option.map_some']
      norm_num
  · rw [mipmapLevelForDownscale_eval (by norm_num)]
    rw [show |(1 : ℚ)| = 1 by norm_num, downscaleSteps_base (by norm_num)]
    rfl
  · rw [mipmapLevelForDownscale_eval (by norm_num)]
    rw [show |(1 : ℚ) / 5| = 1 / 5 by norm_num]
    rw [downscaleSteps_step (by norm_num) (by norm_num)]
    rw [show (4 : ℚ) * (1 / 5) = 4 / 5 by norm_num]
    rw [downscaleSteps_base (by norm_num)]
    norm_num
  · rw [mipmapLevelForDownscale_eval (by norm_num)]
    rw [show |(1 : ℚ) / 20| = 1 / 20 by norm_num]
    rw [downscaleSteps_step (by norm_num) (by norm_num)]
    rw [show (4 : ℚ) * (1 / 20) = 1 / 5 by norm_num]
    rw [downscaleSteps_step (by norm_num) (by norm_num)]
    rw [show (4 : ℚ) * (1 / 5) = 4 / 5 by norm_num]
    rw [downscaleSteps_base (by norm_num)]
    norm_num
  · exact C2_downscale_cex.1

/-- C2 witness: the monotonicity part applied to the concrete pair
0.05 ≤ 0.2 (levels 2 and 1), and the loop recurrence applied at 0.2. -/
theorem C2_downscale_levels_witness :
    mipmapLevelForDownscale (some (1 / 20)) = some 2 ∧
    mipmapLevelForDownscale (some (1 / 5)) = some 1 ∧
    (1 : ℤ) ≤ 2 ∧
    mipmapLevelForDownscale (some (1 / 5)) =
      (mipmapLevelForDownscale (some (4 * (1 / 5 : ℚ)))).map (fun L => L + 1) := by
  have h20 := C2_downscale_levels.2.2.2.2.1
  have h5 := C2_downscale_levels.2.2.2.1
  refine ⟨h20, h5, ?_, ?_⟩
  · refine C2_downscale_levels.1 (1 / 20) (1 / 5) 2 1 (by norm_num) ?_ h20 h5
    rw [abs_of_pos (by norm_num), abs_of_pos (by norm_num)]
    norm_num
  · refine (C2_downscale_levels.2.1 (1 / 5) (by norm_num)).2 ?_
    rw [abs_of_pos (by norm_num)]
    norm_num

/-- Number of float32 attribute values per vertex, graphics.VertexFloatNum.
The graphics package is external to the provided sources; the value 12 is
forced by the source at hand: quadVertices writes 48 floats for 4 vertices
(the bound assertion on vs[:48]) and drawTriangles writes indices 0..11 per
vertex. -/
def vertexFloatNum : ℕ := 12

/-- The verticesBackend vertex arena: the length of the backing float buffer
(none models the Go nil slice) and the write cursor in float units. The mutex
serializes concurrent calls; each call is modelled as one atomic state
transition. -/
structure VerticesBackend where
  backend : Option ℕ
  head : ℕ
deriving DecidableEq

/-- verticesBackend.slice(n): returns the window (offset, length in floats)
carved out of the backing buffer together with the new arena state. If the
remaining capacity is insufficient the buffer is discarded (set nil) and a
fresh one of max(1024, n) vertices is allocated with the cursor reset to 0. -/
def VerticesBackend.slice (v : VerticesBackend) (n : ℕ) : (ℕ × ℕ) × VerticesBackend :=
  let need := n * vertexFloatNum
  let p := if v.head + need > v.backend.getD 0 then ((none : Option ℕ), 0)
           else (v.backend, v.head)
  let b2 := match p.1 with
    | none => vertexFloatNum * (if n > 1024 then n else 1024)
    | some len => len
  ((p.2, need), ⟨some b2, p.2 + need⟩)

/-- Fold of successive slice calls, collecting the returned windows. -/
def sliceRun (v : VerticesBackend) : List ℕ → List (ℕ × ℕ) × VerticesBackend
  | [] => ([], v)
  | n :: t =>
    let r := v.slice n
    let rest := sliceRun r.2 t
    (r.1 :: rest.1, rest.2)

/-- The condition that every call of a run takes the in-place path (no
reallocation of the backing buffer). -/
def noRealloc (v : VerticesBackend) : List ℕ → Prop
  | [] => True
  | n :: t => (v.backend ≠ none ∧ v.head + n * vertexFloatNum ≤ v.backend.getD 0) ∧
      noRealloc (v.slice n).2 t

/-- C10 claim: every slice(n) call returns a window of exactly n times the
per-vertex stride; when the request fits, the cursor advances by n vertices
within the unchanged buffer and the window starts at the old cursor; when it
does not fit (or no buffer exists), the buffer is discarded and reallocated at
max(1024, n) vertices, the cursor resets, and the window is carved from the
front; and over any run of calls with no reallocation the returned windows are
pairwise disjoint windows of the unchanged buffer. -/
theorem C10_vertex_arena :
    (∀ (v : VerticesBackend) (n : ℕ), ((v.slice n).1).2 = n * vertexFloatNum)
    ∧ (∀ (v : VerticesBackend) (n L : ℕ), v.backend = some L →
        v.head + n * vertexFloatNum ≤ L →
        v.slice n = ((v.head, n * vertexFloatNum),
          ⟨some L, v.head + n * vertexFloatNum⟩))
    ∧ (∀ (v : VerticesBackend) (n : ℕ),
        (v.backend = none ∨ v.backend.getD 0 < v.head + n * vertexFloatNum) →
        v.slice n = ((0, n * vertexFloatNum),
          ⟨some (vertexFloatNum * (if 1024 < n then n else 1024)),
           n * vertexFloatNum⟩))
    ∧ (∀ (v : VerticesBackend) (ns : List ℕ), noRealloc v ns →
        (sliceRun v ns).2.backend = v.backend
        ∧ (sliceRun v ns).1.Pairwise (fun s t => s.1 + s.2 ≤ t.1)
        ∧ ∀ s ∈ (sliceRun v ns).1,
            v.head ≤ s.1 ∧ s.1 + s.2 ≤ v.backend.getD 0) := by
  have hlen : ∀ (v : VerticesBackend) (n : ℕ),
      ((v.slice n).1).2 = n * vertexFloatNum := by
    intro v n
    rw [VerticesBackend.slice]
  have hfit : ∀ (v : VerticesBackend) (n L : ℕ), v.backend = some L →
      v.head + n * vertexFloatNum ≤ L →
      v.slice n = ((v.head, n * vertexFloatNum),
        ⟨some L, v.head + n * vertexFloatNum⟩) := by
    intro v n L hb hle
    rw [VerticesBackend.slice]
    simp only [hb, Option.getD_some]
    rw [if_neg (by omega)]
  have hgrow : ∀ (v : VerticesBackend) (n : ℕ),
      (v.backend = none ∨ v.backend.getD 0 < v.head + n * vertexFloatNum) →
      v.slice n = ((0, n * vertexFloatNum),
        ⟨some (vertexFloatNum * (if 1024 < n then n else 1024)),
         n * vertexFloatNum⟩) := by
    intro v n hcase
    rw [VerticesBackend.slice]
    rcases hcase with hb | hlt
    · simp only [hb, Option.getD_none]
      by_cases h0 : v.head + n * vertexFloatNum > 0
      · rw [if_pos h0]
        simp only [Nat.zero_add]
      · rw [if_neg h0]
        have hn : n * vertexFloatNum = 0 := by omega
        have hh : v.head = 0 := by omega
        simp only [hb, hh, hn]
    · rw [if_pos (by omega)]
      simp only [Nat.zero_add]
  refine ⟨hlen, hfit, hgrow, ?_⟩
  intro v ns
  induction ns generalizing v with
  | nil =>
    intro _
    refine ⟨rfl, List.Pairwise.nil, by simp [sliceRun]⟩
  | cons n t ih =>
    intro hnr
    obtain ⟨⟨hne, hle⟩, hrest⟩ := hnr
    obtain ⟨L, hL⟩ : ∃ L, v.backend = some L := by
      cases hb : v.backend with
      | none => exact absurd hb hne
      | some L => exact ⟨L, rfl⟩
    rw [hL, Option.getD_some] at hle
    have hs := hfit v n L hL hle
    have hhead : (v.slice n).2.head = v.head + n * vertexFloatNum := by rw [hs]
    have hback : (v.slice n).2.backend = some L := by rw [hs]
    have hwin : (v.slice n).1 = (v.head, n * vertexFloatNum) := by rw [hs]
    obtain ⟨ihb, ihp, ihm⟩ := ih _ hrest
    rw [hback] at ihb
    refine ⟨?_, ?_, ?_⟩
    · simp only [sliceRun]
      rw [ihb, hL]
    · simp only [sliceRun]
      rw [List.pairwise_cons]
      refine ⟨?_, ihp⟩
      intro s hsmem
      have h1 := (ihm s hsmem).1
      rw [hhead] at h1
      rw [hwin]
      dsimp only
      omega
    · simp only [sliceRun]
      intro s hsmem
      rcases List.mem_cons.mp hsmem with he | he
      · subst he
        rw [hwin, hL]
        dsimp only
        simp only [Option.getD_some]
        omega
      · have h1 := (ihm s he).1
        have h2 := (ihm s he).2
        rw [hhead] at h1
        rw [hback, Option.getD_some] at h2
        rw [hL, Option.getD_some]
        omega

/-- C10 witness: a fitting call advances the cursor in place, an overflowing
call reallocates max(1024, n) vertices and carves from the front, and a
two-call run without reallocation yields disjoint windows. -/
theorem C10_vertex_arena_witness :
    VerticesBackend.slice ⟨some 120, 0⟩ 4 = ((0, 48), ⟨some 120, 48⟩) ∧
    VerticesBackend.slice ⟨some 240, 100⟩ 16 = ((0, 192), ⟨some (12 * 1024), 192⟩) ∧
    (sliceRun ⟨some 120, 0⟩ [4, 4]).1.Pairwise (fun s t => s.1 + s.2 ≤ t.1) := by
  refine ⟨?_, ?_, ?_⟩
  · exact C10_vertex_arena.2.1 ⟨some 120, 0⟩ 4 120 rfl (by decide)
  · exact C10_vertex_arena.2.2.1 ⟨some 240, 100⟩ 16 (Or.inr (by decide))
  · exact (C10_vertex_arena.2.2.2 ⟨some 120, 0⟩ [4, 4]
      ⟨⟨by decide, by decide⟩, ⟨by decide, by decide⟩, trivial⟩).2.1

/-- Texture filters of the driver package (FilterNearest, FilterLinear,
FilterScreen). -/
inductive TexFilter where
  | nearest
  | linear
  | screen
deriving DecidableEq

/-- Edge address modes of the driver package (AddressClampToZero,
AddressRepeat). -/
inductive Address where
  | clampToZero
  | repeatMode
deriving DecidableEq

/-- Composite (blend) modes of the driver package; the code at hand only
names CompositeModeCopy, all other values are passed through opaquely, so
the type is modelled as a code. -/
abbrev CompositeMode : Type := ℕ

/-- The driver composite mode used for internal mipmap derivation draws. -/
def compositeModeCopy : CompositeMode := (0 : ℕ)

/-- Modelled from the spec: affine.ColorM is external to the provided
sources. Step 5 of drawImage only asks whether the color transform is a pure
per-channel scale and, if so, extracts the four scale factors; the model
carries exactly that. -/
structure ColorM where
  scaleOnly : Bool
  sr : ℚ
  sg : ℚ
  sb : ℚ
  sa : ℚ
deriving DecidableEq

/-- Modelled from the spec: ebiten.GeoM (the affine geometry matrix) is
external to the provided sources; its elements() method yields a, b, c, d,
tx, ty and det() yields a*d - b*c as a float32. The detNaN flag models a
matrix whose determinant is NaN, the one non-finite case the code tests. -/
structure GeoM where
  a : ℚ
  b : ℚ
  c : ℚ
  d : ℚ
  tx : ℚ
  ty : ℚ
  detNaN : Bool
deriving DecidableEq

/-- GeoM.det: none models NaN. -/
def GeoM.det (g : GeoM) : Option ℚ :=
  if g.detNaN then none else some (g.a * g.d - g.b * g.c)

/-- One backend DrawTriangles call as observed by the graphics backend:
destination and source image ids, interleaved vertex data, index list, color
transform (none when dropped by the scale-only fast path or for internal
derivation draws), composite mode, filter and address mode. -/
structure DrawRec where
  dst : ℕ
  src : ℕ
  vs : List ℚ
  ixs : List ℕ
  colorm : Option ColorM
  mode : CompositeMode
  filter : TexFilter
  address : Address
deriving DecidableEq

/-- The world of backend images: the id allocator for shareable.NewImage,
the ordered list of issued DrawTriangles calls, and the ids of disposed
images. -/
structure World where
  nextId : ℕ
  draws : List DrawRec
  disposals : List ℕ
deriving DecidableEq

/-- The mipmap pyramid: logical size, volatile flag, base image id (none once
disposed, modelling the nil pointer), and the derived-level cache keyed by
rectangle then level, where a none image is the explicit unrepresentable
marker (the nil entry the Go code stores). -/
structure Mipmap where
  width : ℤ
  height : ℤ
  volatile : Bool
  orig : Option ℕ
  imgs : List (Rect × List (ℤ × Option ℕ))
deriving DecidableEq

/-- newMipmap: fresh pyramid over a newly allocated base image. -/
def newMipmap (width height : ℤ) (volatile : Bool) (w : World) : Mipmap × World :=
  (⟨width, height, volatile, some w.nextId, []⟩, ⟨w.nextId + 1, w.draws, w.disposals⟩)

/-- newScreenFramebufferMipmap: pyramid wrapping a backend screen
framebuffer image; the volatile field is left at its zero value (false). -/
def newScreenFramebufferMipmap (width height : ℤ) (w : World) : Mipmap × World :=
  (⟨width, height, false, some w.nextId, []⟩, ⟨w.nextId + 1, w.draws, w.disposals⟩)

/-- Go quadVertices: the 48 interleaved float values of one transformed quad
(four corners: top-left, top-right, bottom-left, bottom-right; per vertex:
destination position, source uv, clamp rectangle min and max, color). -/
def quadVertices (sx0 sy0 sx1 sy1 : ℤ) (a b c d tx ty cr cg cb ca : ℚ) : List ℚ :=
  let x : ℚ := ((sx1 - sx0 : ℤ) : ℚ)
  let y : ℚ := ((sy1 - sy0 : ℤ) : ℚ)
  let axv := a * x
  let byv := b * y
  let cxv := c * x
  let dyv := d * y
  let u0 : ℚ := ((sx0 : ℤ) : ℚ)
  let v0 : ℚ := ((sy0 : ℤ) : ℚ)
  let u1 : ℚ := ((sx1 : ℤ) : ℚ)
  let v1 : ℚ := ((sy1 : ℤ) : ℚ)
  [tx, ty, u0, v0, u0, v0, u1, v1, cr, cg, cb, ca,
   axv + tx, cxv + ty, u1, v0, u0, v0, u1, v1, cr, cg, cb, ca,
   byv + tx, dyv + ty, u0, v1, u0, v0, u1, v1, cr, cg, cb, ca,
   axv + byv + tx, cxv + dyv + ty, u1, v1, u0, v0, u1, v1, cr, cg, cb, ca]

/-- Modelled from the spec: graphics.QuadIndices is external to the provided
sources; it is the fixed index buffer splitting one quad into two triangles.
Its exact value is recorded opaquely in draw records and never inspected. -/
def quadIndices : List ℕ := [0, 1, 2, 1, 2, 3]

/-- Go geomScaleSize: per-axis bounding-box extent of the transform applied
to the unit square's three non-origin corners. maxf32/minf32 fold from
minus/plus infinity over the four arguments, which on rationals is the
four-way max/min. -/
def geomScaleSize (g : GeoM) : ℚ × ℚ :=
  let x0 := 0 * g.a + 1 * g.b
  let y0 := 0 * g.c + 1 * g.d
  let x1 := 1 * g.a + 0 * g.b
  let y1 := 1 * g.c + 0 * g.d
  let x2 := 1 * g.a + 1 * g.b
  let y2 := 1 * g.c + 1 * g.d
  (max (max (max 0 x0) x1) x2 - min (min (min 0 x0) x1) x2,
   max (max (max 0 y0) y1) y2 - min (min (min 0 y0) y1) y2)

theorem floor_half_toNat_le (q : ℚ) : (⌊q / 2⌋).toNat ≤ (⌊q⌋).toNat := by
  rcases le_or_lt 0 q with h | h
  · have hle : q / 2 ≤ q := by linarith
    have := Int.floor_le_floor hle
    omega
  · have h2 : q / 2 < 0 := by linarith
    have f1 : ⌊q⌋ < 0 := Int.floor_lt.mpr (by exact_mod_cast h)
    have f2 : ⌊q / 2⌋ < 0 := Int.floor_lt.mpr (by exact_mod_cast h2)
    omega

theorem floor_half_toNat_lt {q : ℚ} (h : 128 ≤ q) : (⌊q / 2⌋).toNat < (⌊q⌋).toNat := by
  have h1 : q / 2 ≤ q - 64 := by linarith
  have h2 : ⌊q / 2⌋ ≤ ⌊q - 64⌋ := Int.floor_le_floor h1
  have h3 : ⌊q - (64 : ℚ)⌋ = ⌊q⌋ - 64 := by
    rw [show (64 : ℚ) = ((64 : ℤ) : ℚ) by norm_num]
    exact Int.floor_sub_int q 64
  have h4 : (128 : ℤ) ≤ ⌊q⌋ := by
    rw [Int.le_floor]
    exact_mod_cast h
  omega

/-- Negative-level loop of mipmapLevel for extreme magnification: walk the
level downward, halving the scale extents and doubling the logical size,
until the scale drops below 128 or the doubled size reaches 1024. -/
def bigScaleLoop (sx sy : ℚ) (w h level : ℤ) : ℤ :=
  if 128 ≤ sx ∨ 128 ≤ sy then
    let sx1 := sx / 2
    let sy1 := sy / 2
    let w1 := w * 2
    let h1 := h * 2
    if 1024 ≤ w1 ∨ 1024 ≤ h1 then level - 1
    else bigScaleLoop sx1 sy1 w1 h1 (level - 1)
  else level
termination_by (⌊sx⌋).toNat + (⌊sy⌋).toNat
decreasing_by
  rename_i hcond _
  rcases hcond with hc | hc
  · have a1 := floor_half_toNat_lt hc
    have a2 := floor_half_toNat_le sy
    omega
  · have a1 := floor_half_toNat_le sx
    have a2 := floor_half_toNat_lt hc
    omega

/-- Go mipmap.mipmapLevel: level selection for drawImage. A none result
models the panic on a NaN or zero determinant. -/
def mipmapLevel (m : Mipmap) (g : GeoM) (width height : ℤ) (filter : TexFilter) :
    Option ℤ :=
  match g.det with
  | none => none
  | some det =>
    if det = 0 then none
    else
      let s := geomScaleSize g
      if 128 ≤ s.1 ∨ 128 ≤ s.2 then
        if filter ≠ TexFilter.nearest then some 0
        else if 1024 ≤ width ∨ 1024 ≤ height then some 0
        else some (bigScaleLoop s.1 s.2 width height 0)
      else if filter ≠ TexFilter.linear then some 0
      else if m.volatile then some 0
      else mipmapLevelForDownscale (some det)

/-- The level-adjustment loop of drawImage (issue 839): while the selected
positive level would scale either bounds dimension to zero, decrement it;
the loop leaves level -1 when no non-degenerate level exists. -/
def adjustLevel (w h level : ℤ) : ℤ :=
  if 0 ≤ level then
    if w.tdiv (2 ^ level.toNat) = 0 ∨ h.tdiv (2 ^ level.toNat) = 0 then
      adjustLevel w h (level - 1)
    else level
  else level
termination_by (level + 1).toNat
decreasing_by omega

/-- Loop of Go pow2 for negative powers: repeated exact halving. -/
def halvePow (n : ℕ) : ℚ :=
  match n with
  | 0 => 1
  | n + 1 => halvePow n / 2

/-- Go pow2: 2^power as a float (exact in the rational model). -/
def pow2 (power : ℤ) : ℚ :=
  if 0 ≤ power then ((2 ^ power.toNat : ℕ) : ℚ) else halvePow (-power).toNat

/-- Write of one derived-level cache entry: m.imgs[r][level] = v, the nested
Go map assignment (the outer entry for r is present by the time this runs). -/
def setLevelEntry (m : Mipmap) (r : Rect) (L : ℤ) (v : Option ℕ) : Mipmap :=
  ⟨m.width, m.height, m.volatile, m.orig,
   insertA m.imgs r (insertA ((lookupA m.imgs r).getD []) L v)⟩

/-- First step of mipmap.level on the cache map: insert an empty level map
for the rectangle when absent (the Go code always performs this before the
level lookup). -/
def ensureEntry (m : Mipmap) (r : Rect) : Mipmap :=
  if (lookupA m.imgs r).isSome then m
  else ⟨m.width, m.height, m.volatile, m.orig, insertA m.imgs r []⟩

/-- Common tail of mipmap.level after the switch has produced the draw source
and vertices: check the target size for the requested level, store the
unrepresentable marker on a degenerate size, otherwise allocate the derived
image, issue the copy draw into it and store it. A nil draw source (disposed
base image) reaching the draw is a panic (none). -/
def finishDerive (r : Rect) (L : ℤ) (m : Mipmap) (w : World) (srcOpt : Option ℕ)
    (vs : List ℚ) (filter : TexFilter) : Option (Option ℕ × Mipmap × World) :=
  let wh := sizeForLevel r.dx r.dy L
  if wh.1 = 0 ∨ wh.2 = 0 then some (none, setLevelEntry m r L none, w)
  else
    match srcOpt with
    | none => none
    | some srcId =>
      let newId := w.nextId
      let w1 : World := ⟨w.nextId + 1,
        w.draws ++ [⟨newId, srcId, vs, quadIndices, none, compositeModeCopy,
          filter, Address.clampToZero⟩],
        w.disposals⟩
      some (some newId, setLevelEntry m r L (some newId), w1)

/-- Go mipmap.level: the cached derived image of rectangle r at nonzero
level, derived on demand by a half-scale (linear filter) or double-scale
(nearest filter) draw from the neighbouring level. The result is the image
id, or none for the unrepresentable marker; the outer none models the panics
(level 0, volatile pyramid) and the nil-source draw. -/
def levelF (r : Rect) (L : ℤ) (m : Mipmap) (w : World) :
    Option (Option ℕ × Mipmap × World) :=
  if L = 0 then none
  else if m.volatile then none
  else
    let m1 := ensureEntry m r
    match lookupA ((lookupA m1.imgs r).getD []) L with
    | some img => some (img, m1, w)
    | none =>
      if L = 1 then
        finishDerive r L m1 w m1.orig
          (quadVertices r.minX r.minY r.maxX r.maxY (1 / 2) 0 0 (1 / 2) 0 0 1 1 1 1)
          TexFilter.linear
      else if 1 < L then
        match levelF r (L - 1) m1 w with
        | none => none
        | some (srcImg, m2, w2) =>
          match srcImg with
          | none => some (none, setLevelEntry m2 r L none, w2)
          | some srcId =>
            let wh := sizeForLevel r.dx r.dy (L - 1)
            finishDerive r L m2 w2 (some srcId)
              (quadVertices 0 0 wh.1 wh.2 (1 / 2) 0 0 (1 / 2) 0 0 1 1 1 1)
              TexFilter.linear
      else if L = -1 then
        finishDerive r L m1 w m1.orig
          (quadVertices r.minX r.minY r.maxX r.maxY 2 0 0 2 0 0 1 1 1 1)
          TexFilter.nearest
      else
        match levelF r (L + 1) m1 w with
        | none => none
        | some (srcImg, m2, w2) =>
          match srcImg with
          | none => some (none, setLevelEntry m2 r L none, w2)
          | some srcId =>
            let wh := sizeForLevel r.dx r.dy (L + 1)
            finishDerive r L m2 w2 (some srcId)
              (quadVertices 0 0 wh.1 wh.2 2 0 0 2 0 0 1 1 1 1)
              TexFilter.nearest
termination_by L.natAbs
decreasing_by
  · omega
  · omega

/-- Go mipmap.disposeMipmaps: dispose every cached derived image (the nil
unrepresentable markers hold no backend image) and clear the cache map. -/
def disposeMipmapsF (m : Mipmap) (w : World) : Mipmap × World :=
  (⟨m.width, m.height, m.volatile, m.orig, []⟩,
   ⟨w.nextId, w.draws,
    w.disposals ++ (m.imgs.map (fun e => e.2.filterMap Prod.snd)).flatten⟩)

/-- Go mipmap.fill: fill the base image (a backend pixel operation with no
observable in this model) and invalidate the derived-level cache. A disposed
base image (nil orig) is a panic. -/
def fillF (m : Mipmap) (w : World) : Option (Mipmap × World) :=
  match m.orig with
  | none => none
  | some _ => some (disposeMipmapsF m w)

/-- Go mipmap.replacePixels: overwrite the base pixels (backend operation,
no observable here) and invalidate the derived-level cache. -/
def replacePixelsF (m : Mipmap) (pix : List ℕ) (w : World) : Option (Mipmap × World) :=
  match m.orig with
  | none => none
  | some _ => some (disposeMipmapsF m w)

/-- Modelled from the spec and the drawTriangles field accesses: the public
Vertex type (destination position, source uv, color), defined outside the
provided sources. -/
structure Vertex where
  dstX : ℚ
  dstY : ℚ
  srcX : ℚ
  srcY : ℚ
  colorR : ℚ
  colorG : ℚ
  colorB : ℚ
  colorA : ℚ
deriving DecidableEq

/-- The interleaved vertex data drawTriangles builds: per input vertex, the
destination position, source uv, the bounds rectangle as both clamp fields,
and the color. -/
def trianglesVs (bounds : Rect) (vertices : List Vertex) : List ℚ :=
  (vertices.map (fun v =>
    [v.dstX, v.dstY, v.srcX, v.srcY,
     ((bounds.minX : ℤ) : ℚ), ((bounds.minY : ℤ) : ℚ),
     ((bounds.maxX : ℤ) : ℚ), ((bounds.maxY : ℤ) : ℚ),
     v.colorR, v.colorG, v.colorB, v.colorA])).flatten

/-- Go mipmap.drawTriangles: build the interleaved vertices, issue one
indexed triangle-batch draw of src's base image into m's base image, then
invalidate m's derived-level cache. -/
def drawTrianglesF (m src : Mipmap) (bounds : Rect) (vertices : List Vertex)
    (ixs : List ℕ) (colorm : Option ColorM) (mode : CompositeMode)
    (filter : TexFilter) (address : Address) (w : World) :
    Option (Mipmap × World) :=
  match m.orig, src.orig with
  | some dstId, some srcId =>
    let w1 : World := ⟨w.nextId,
      w.draws ++ [⟨dstId, srcId, trianglesVs bounds vertices, ixs, colorm,
        mode, filter, address⟩],
      w.disposals⟩
    some (disposeMipmapsF m w1)
  | _, _ => none

/-- The scale-only fast path of drawImage step 5: extract the four per-channel
factors and drop the color transform, or keep the transform and use factor 1. -/
def colorScale (cm : ColorM) : (ℚ × ℚ × ℚ × ℚ) × Option ColorM :=
  if cm.scaleOnly then ((cm.sr, cm.sg, cm.sb, cm.sa), none)
  else ((1, 1, 1, 1), some cm)

/-- The level-adjustment step of drawImage: the adjustment loop runs only for
a positive selected level. -/
def selectLevel (bounds : Rect) (level0 : ℤ) : ℤ :=
  if 0 < level0 then adjustLevel bounds.dx bounds.dy level0 else level0

/-- The clamping of the selected level to [-6, 6] (two successive ifs in the
source). -/
def clampLevel (level : ℤ) : ℤ :=
  let l1 := if 6 < level then 6 else level
  if l1 < -6 then -6 else l1

/-- Go mipmap.drawImage: the central draw operation. Zero and NaN
determinants return silently; a selected positive level that would collapse
the source is decremented, skipping the draw if no level works; the level is
clamped to [-6, 6]; level 0 draws the base image directly, other levels draw
the (derived on demand) cached image with the linear part rescaled by
2^level; afterwards the destination's derived-level cache is invalidated.
The result is (destination, source, world); none models a panic reached
through a disposed image. -/
def drawImageF (m src : Mipmap) (bounds : Rect) (g : GeoM) (colorm : ColorM)
    (mode : CompositeMode) (filter : TexFilter) (w : World) :
    Option (Mipmap × Mipmap × World) :=
  match g.det with
  | none => some (m, src, w)
  | some det =>
    if det = 0 then some (m, src, w)
    else
      match mipmapLevel src g bounds.dx bounds.dy filter with
      | none => none
      | some level0 =>
        let level1 := selectLevel bounds level0
        if 0 < level0 ∧ level1 < 0 then some (m, src, w)
        else
          let level := clampLevel level1
          let cs := colorScale colorm
          if level = 0 then
            match m.orig, src.orig with
            | some dstId, some srcId =>
              let vs := quadVertices bounds.minX bounds.minY bounds.maxX bounds.maxY
                g.a g.b g.c g.d g.tx g.ty cs.1.1 cs.1.2.1 cs.1.2.2.1 cs.1.2.2.2
              let w1 : World := ⟨w.nextId,
                w.draws ++ [⟨dstId, srcId, vs, quadIndices, cs.2, mode, filter,
                  Address.clampToZero⟩],
                w.disposals⟩
              let dm := disposeMipmapsF m w1
              some (dm.1, src, dm.2)
            | _, _ => none
          else
            match levelF bounds level src w with
            | none => none
            | some (imgOpt, src1, w1) =>
              match imgOpt with
              | none =>
                let dm := disposeMipmapsF m w1
                some (dm.1, src1, dm.2)
              | some sharedId =>
                match m.orig with
                | none => none
                | some dstId =>
                  let wh := sizeForLevel bounds.dx bounds.dy level
                  let sc := pow2 level
                  let vs := quadVertices 0 0 wh.1 wh.2 (g.a * sc) (g.b * sc)
                    (g.c * sc) (g.d * sc) g.tx g.ty cs.1.1 cs.1.2.1 cs.1.2.2.1
                    cs.1.2.2.2
                  let w2 : World := ⟨w1.nextId,
                    w1.draws ++ [⟨dstId, sharedId, vs, quadIndices, cs.2, mode,
                      filter, Address.clampToZero⟩],
                    w1.disposals⟩
                  let dm := disposeMipmapsF m w2
                  some (dm.1, src1, dm.2)

theorem lookupA_insertA_self {α β : Type} [DecidableEq α] (l : List (α × β))
    (k : α) (v : β) : lookupA (insertA l k v) k = some v := by
  induction l with
  | nil => simp [insertA, lookupA]
  | cons e t ih =>
    obtain ⟨a, b⟩ := e
    by_cases hak : a = k
    · subst hak
      simp [insertA, lookupA]
    · simp [insertA, lookupA, hak]
      exact ih

theorem ensureEntry_volatile (m : Mipmap) (r : Rect) :
    (ensureEntry m r).volatile = m.volatile := by
  rw [ensureEntry]
  split <;> rfl

theorem setLevelEntry_volatile (m : Mipmap) (r : Rect) (L : ℤ) (v : Option ℕ) :
    (setLevelEntry m r L v).volatile = m.volatile := rfl

theorem setLevelEntry_lookup (m : Mipmap) (r : Rect) (L : ℤ) (v : Option ℕ) :
    lookupA ((lookupA (setLevelEntry m r L v).imgs r).getD []) L = some v := by
  rw [setLevelEntry]
  dsimp only
  rw [lookupA_insertA_self, Option.getD_some, lookupA_insertA_self]

theorem finishDerive_post {r : Rect} {L : ℤ} {m : Mipmap} {w : World}
    {srcOpt : Option ℕ} {vs : List ℚ} {filter : TexFilter} {res : Option ℕ}
    {m' : Mipmap} {w' : World}
    (h : finishDerive r L m w srcOpt vs filter = some (res, m', w')) :
    m'.volatile = m.volatile ∧
    lookupA ((lookupA m'.imgs r).getD []) L = some res := by
  cases srcOpt with
  | none =>
    rw [finishDerive.eq_def] at h
    dsimp only at h
    by_cases hz : (sizeForLevel r.dx r.dy L).1 = 0 ∨ (sizeForLevel r.dx r.dy L).2 = 0
    · rw [if_pos hz] at h
      simp only [Option.some.injEq, Prod.mk.injEq] at h
      obtain ⟨rfl, rfl, rfl⟩ := h
      exact ⟨setLevelEntry_volatile .., setLevelEntry_lookup ..⟩
    · rw [if_neg hz] at h
      simp at h
  | some srcId =>
    rw [finishDerive.eq_def] at h
    dsimp only at h
    by_cases hz : (sizeForLevel r.dx r.dy L).1 = 0 ∨ (sizeForLevel r.dx r.dy L).2 = 0
    · rw [if_pos hz] at h
      simp only [Option.some.injEq, Prod.mk.injEq] at h
      obtain ⟨rfl, rfl, rfl⟩ := h
      exact ⟨setLevelEntry_volatile .., setLevelEntry_lookup ..⟩
    · rw [if_neg hz] at h
      simp only [Option.some.injEq, Prod.mk.injEq] at h
      obtain ⟨rfl, rfl, rfl⟩ := h
      exact ⟨setLevelEntry_volatile .., setLevelEntry_lookup ..⟩

theorem levelF_post_aux :
    ∀ (n : ℕ) (L : ℤ), L.natAbs = n → ∀ (r : Rect) (m : Mipmap) (w : World)
      (res : Option ℕ) (m' : Mipmap) (w' : World),
      levelF r L m w = some (res, m', w') →
      m'.volatile = m.volatile ∧
      lookupA ((lookupA m'.imgs r).getD []) L = some res := by
  intro n
  induction n using Nat.strong_induction_on with
  | _ n ih =>
    intro L hn r m w res m' w' h
    rw [levelF] at h
    by_cases hL0 : L = 0
    · rw [if_pos hL0] at h
      simp at h
    rw [if_neg hL0] at h
    by_cases hvol : m.volatile = true
    · rw [if_pos hvol] at h
      simp at h
    rw [if_neg hvol] at h
    dsimp only at h
    split at h
    · rename_i img heq
      simp only [Option.some.injEq, Prod.mk.injEq] at h
      obtain ⟨rfl, rfl, rfl⟩ := h
      exact ⟨ensureEntry_volatile m r, heq⟩
    · rename_i heqnone
      by_cases hL1 : L = 1
      · rw [if_pos hL1] at h
        have := finishDerive_post h
        rw [ensureEntry_volatile m r] at this
        exact this
      rw [if_neg hL1] at h
      by_cases hLg : 1 < L
      · rw [if_pos hLg] at h
        split at h
        · simp at h
        · rename_i srcImg m2 w2 heq2
          have hrec := ih (L - 1).natAbs (by omega) (L - 1) rfl r
            (ensureEntry m r) w srcImg m2 w2 heq2
          cases srcImg with
          | none =>
            simp only [Option.some.injEq, Prod.mk.injEq] at h
            obtain ⟨rfl, rfl, rfl⟩ := h
            refine ⟨?_, setLevelEntry_lookup ..⟩
            rw [setLevelEntry_volatile, hrec.1, ensureEntry_volatile]
          | some srcId =>
            have := finishDerive_post h
            rw [hrec.1, ensureEntry_volatile m r] at this
            exact this
      rw [if_neg hLg] at h
      by_cases hLm1 : L = -1
      · rw [if_pos hLm1] at h
        have := finishDerive_post h
        rw [ensureEntry_volatile m r] at this
        exact this
      rw [if_neg hLm1] at h
      split at h
      · simp at h
      · rename_i srcImg m2 w2 heq2
        have hrec := ih (L + 1).natAbs (by omega) (L + 1) rfl r
          (ensureEntry m r) w srcImg m2 w2 heq2
        cases srcImg with
        | none =>
          simp only [Option.some.injEq, Prod.mk.injEq] at h
          obtain ⟨rfl, rfl, rfl⟩ := h
          refine ⟨?_, setLevelEntry_lookup ..⟩
          rw [setLevelEntry_volatile, hrec.1, ensureEntry_volatile]
        | some srcId =>
          have := finishDerive_post h
          rw [hrec.1, ensureEntry_volatile m r] at this
          exact this

theorem levelF_post {r : Rect} {L : ℤ} {m : Mipmap} {w : World} {res : Option ℕ}
    {m' : Mipmap} {w' : World} (h : levelF r L m w = some (res, m', w')) :
    m'.volatile = m.volatile ∧
    lookupA ((lookupA m'.imgs r).getD []) L = some res :=
  levelF_post_aux L.natAbs L rfl r m w res m' w' h

theorem levelF_cached {r : Rect} {L : ℤ} {m : Mipmap} {w : World} {res : Option ℕ}
    {m' : Mipmap} {w' : World} (h : levelF r L m w = some (res, m', w')) :
    levelF r L m' w' = some (res, m', w') := by
  have hL0 : L ≠ 0 := by
    intro hc
    subst hc
    rw [levelF] at h
    simp at h
  have hvol : m.volatile = false := by
    by_contra hc
    rw [Bool.not_eq_false] at hc
    rw [levelF, if_neg hL0, if_pos hc] at h
    simp at h
  obtain ⟨hv, hl⟩ := levelF_post h
  have houter : (lookupA m'.imgs r).isSome = true := by
    cases ho : lookupA m'.imgs r with
    | none =>
      rw [ho] at hl
      simp [lookupA] at hl
    | some lm => rfl
  have hee : ensureEntry m' r = m' := by
    rw [ensureEntry, if_pos houter]
  rw [levelF, if_neg hL0, if_neg (by rw [hv, hvol]; simp)]
  dsimp only
  rw [hee, hl]

/-- C1 counterexample: a drawImage call whose transform determinant is NaN
returns normally with all state unchanged (a silent no-op), instead of
aborting: the source tests IsNaN right after the zero test and returns. -/
theorem C1_nan_returns_normally :
    drawImageF ⟨2, 2, false, some 0, []⟩ ⟨2, 2, false, some 1, []⟩ ⟨0, 0, 2, 2⟩
      ⟨1, 0, 0, 1, 0, 0, true⟩ ⟨true, 1, 1, 1, 1⟩ 0 TexFilter.linear ⟨2, [], []⟩ =
      some (⟨2, 2, false, some 0, []⟩, ⟨2, 2, false, some 1, []⟩, ⟨2, [], []⟩) := by
  rw [drawImageF.eq_def]
  rfl

/-- C1 claim, amended: a NaN determinant at drawImage is a silent no-op
exactly like the determinant-zero case (no draw, no cache change, normal
return); the fatal contract violation for a NaN determinant exists only in
the internal level-selection functions mipmapLevel and
mipmapLevelForDownscale when they are reached directly, which drawImage
never does because it filters NaN first. -/
theorem C1_nan_silent_noop :
    (∀ (m src : Mipmap) (bounds : Rect) (g : GeoM) (colorm : ColorM)
        (mode : CompositeMode) (filter : TexFilter) (w : World),
        g.detNaN = true →
        drawImageF m src bounds g colorm mode filter w = some (m, src, w))
    ∧ mipmapLevelForDownscale none = none
    ∧ (∀ (m : Mipmap) (g : GeoM) (width height : ℤ) (filter : TexFilter),
        g.detNaN = true → mipmapLevel m g width height filter = none) := by
  refine ⟨?_, rfl, ?_⟩
  · intro m src bounds g colorm mode filter w hnan
    rw [drawImageF.eq_def, show g.det = none by rw [GeoM.det, if_pos hnan]]
  · intro m g width height filter hnan
    rw [mipmapLevel, show g.det = none by rw [GeoM.det, if_pos hnan]]

/-- C1 witness: the silent-no-op part and the mipmapLevel panic part applied
at a concrete NaN matrix. -/
theorem C1_nan_silent_noop_witness :
    (GeoM.mk 2 0 0 2 0 0 true).detNaN = true ∧
    drawImageF ⟨4, 4, false, some 0, []⟩ ⟨4, 4, false, some 1, []⟩ ⟨0, 0, 4, 4⟩
      ⟨2, 0, 0, 2, 0, 0, true⟩ ⟨true, 1, 1, 1, 1⟩ 0 TexFilter.linear ⟨2, [], []⟩ =
      some (⟨4, 4, false, some 0, []⟩, ⟨4, 4, false, some 1, []⟩, ⟨2, [], []⟩) ∧
    mipmapLevel ⟨4, 4, false, some 0, []⟩ ⟨2, 0, 0, 2, 0, 0, true⟩ 4 4
      TexFilter.linear = none :=
  ⟨rfl,
   C1_nan_silent_noop.1 ⟨4, 4, false, some 0, []⟩ ⟨4, 4, false, some 1, []⟩
     ⟨0, 0, 4, 4⟩ ⟨2, 0, 0, 2, 0, 0, true⟩ ⟨true, 1, 1, 1, 1⟩ 0
     TexFilter.linear ⟨2, [], []⟩ rfl,
   C1_nan_silent_noop.2.2 ⟨4, 4, false, some 0, []⟩ ⟨2, 0, 0, 2, 0, 0, true⟩
     4 4 TexFilter.linear rfl⟩

/-- C6 claim: drawImage with a determinant of exactly zero issues no GPU draw
call and leaves the destination pyramid's derived-level cache (and the whole
world: no disposal, no allocation) unchanged. -/
theorem C6_det_zero_noop (m src : Mipmap) (bounds : Rect) (g : GeoM)
    (colorm : ColorM) (mode : CompositeMode) (filter : TexFilter) (w : World)
    (h : g.det = some 0) :
    drawImageF m src bounds g colorm mode filter w = some (m, src, w) := by
  rw [drawImageF.eq_def, h]
  dsimp only
  rw [if_pos rfl]

/-- C6 witness: the transform (1, 0, 0, 0) has determinant exactly zero and
its draw leaves everything unchanged. -/
theorem C6_det_zero_noop_witness :
    GeoM.det ⟨1, 0, 0, 0, 0, 0, false⟩ = some 0 ∧
    drawImageF ⟨2, 2, false, some 0, [(⟨0, 0, 2, 2⟩, [(1, some 1)])]⟩
      ⟨2, 2, false, some 9, []⟩ ⟨0, 0, 2, 2⟩ ⟨1, 0, 0, 0, 0, 0, false⟩
      ⟨true, 1, 1, 1, 1⟩ 0 TexFilter.linear ⟨2, [], []⟩ =
      some (⟨2, 2, false, some 0, [(⟨0, 0, 2, 2⟩, [(1, some 1)])]⟩,
        ⟨2, 2, false, some 9, []⟩, ⟨2, [], []⟩) := by
  have hdet : GeoM.det ⟨1, 0, 0, 0, 0, 0, false⟩ = some 0 := by
    rw [GeoM.det]
    norm_num
  exact ⟨hdet, C6_det_zero_noop _ _ _ _ _ _ _ _ hdet⟩

/-- C3 claim, amended on the drawImage conjunct as forced by the
counterexample: a repeated level(rect, L) call returns the same image with no
state change (cache hit, recorded by the entry the first call stored); fill,
replacePixels and drawTriangles clear the derived-level cache; and drawImage
either is one of its silent no-ops (zero or NaN determinant, or the
render-source-too-small skip), leaving destination, source and world
untouched, or clears the destination's derived-level cache. With the cache
cleared, a subsequent level call misses the cache and re-derives. -/
theorem C3_level_cache :
    (∀ (r : Rect) (L : ℤ) (m : Mipmap) (w : World) (res : Option ℕ)
        (m' : Mipmap) (w' : World), levelF r L m w = some (res, m', w') →
        levelF r L m' w' = some (res, m', w') ∧
        lookupA ((lookupA m'.imgs r).getD []) L = some res)
    ∧ (∀ (m : Mipmap) (w : World) (m' : Mipmap) (w' : World),
        fillF m w = some (m', w') → m'.imgs = [])
    ∧ (∀ (m : Mipmap) (pix : List ℕ) (w : World) (m' : Mipmap) (w' : World),
        replacePixelsF m pix w = some (m', w') → m'.imgs = [])
    ∧ (∀ (m src : Mipmap) (bounds : Rect) (vertices : List Vertex)
        (ixs : List ℕ) (colorm : Option ColorM) (mode : CompositeMode)
        (filter : TexFilter) (address : Address) (w : World) (m' : Mipmap)
        (w' : World),
        drawTrianglesF m src bounds vertices ixs colorm mode filter address w =
          some (m', w') → m'.imgs = [])
    ∧ (∀ (m src : Mipmap) (bounds : Rect) (g : GeoM) (colorm : ColorM)
        (mode : CompositeMode) (filter : TexFilter) (w : World)
        (m' src' : Mipmap) (w' : World),
        drawImageF m src bounds g colorm mode filter w = some (m', src', w') →
        (m' = m ∧ src' = src ∧ w' = w) ∨ m'.imgs = []) := by
  refine ⟨?_, ?_, ?_, ?_, ?_⟩
  · intro r L m w res m' w' h
    exact ⟨levelF_cached h, (levelF_post h).2⟩
  · intro m w m' w' h
    rw [fillF.eq_def] at h
    split at h
    · simp at h
    · simp only [Option.some.injEq] at h
      have h1 : (disposeMipmapsF m w).1 = m' := congrArg Prod.fst h
      rw [← h1]
      rfl
  · intro m pix w m' w' h
    rw [replacePixelsF.eq_def] at h
    split at h
    · simp at h
    · simp only [Option.some.injEq] at h
      have h1 : (disposeMipmapsF m w).1 = m' := congrArg Prod.fst h
      rw [← h1]
      rfl
  · intro m src bounds vertices ixs colorm mode filter address w m' w' h
    rw [drawTrianglesF.eq_def] at h
    split at h
    · simp only [Option.some.injEq] at h
      have h1 : _ = m' := congrArg Prod.fst h
      rw [← h1]
      rfl
    · simp at h
  · intro m src bounds g colorm mode filter w m' src' w' h
    rw [drawImageF.eq_def] at h
    cases hdet : g.det with
    | none =>
      rw [hdet] at h
      dsimp only at h
      simp only [Option.some.injEq, Prod.mk.injEq] at h
      exact Or.inl ⟨h.1.symm, h.2.1.symm, h.2.2.symm⟩
    | some det =>
      rw [hdet] at h
      dsimp only at h
      by_cases hd0 : det = 0
      · rw [if_pos hd0] at h
        simp only [Option.some.injEq, Prod.mk.injEq] at h
        exact Or.inl ⟨h.1.symm, h.2.1.symm, h.2.2.symm⟩
      · rw [if_neg hd0] at h
        cases hml : mipmapLevel src g bounds.dx bounds.dy filter with
        | none =>
          rw [hml] at h
          simp at h
        | some level0 =>
          rw [hml] at h
          dsimp only at h
          by_cases hskip : 0 < level0 ∧ selectLevel bounds level0 < 0
          · rw [if_pos hskip] at h
            simp only [Option.some.injEq, Prod.mk.injEq] at h
            exact Or.inl ⟨h.1.symm, h.2.1.symm, h.2.2.symm⟩
          · rw [if_neg hskip] at h
            by_cases hlz : clampLevel (selectLevel bounds level0) = 0
            · rw [if_pos hlz] at h
              cases hmo : m.orig with
              | none =>
                cases hso : src.orig <;> rw [hmo, hso] at h <;> simp at h
              | some dstId =>
                cases hso : src.orig with
                | none =>
                  rw [hmo, hso] at h
                  simp at h
                | some srcId =>
                  rw [hmo, hso] at h
                  dsimp only at h
                  simp only [Option.some.injEq, Prod.mk.injEq] at h
                  refine Or.inr ?_
                  rw [← show _ = m' from h.1]
                  rfl
            · rw [if_neg hlz] at h
              cases hlev : levelF bounds (clampLevel (selectLevel bounds level0))
                  src w with
              | none =>
                rw [hlev] at h
                simp at h
              | some trip =>
                obtain ⟨imgOpt, src1, w1⟩ := trip
                rw [hlev] at h
                dsimp only at h
                cases imgOpt with
                | none =>
                  simp only [Option.some.injEq, Prod.mk.injEq] at h
                  refine Or.inr ?_
                  rw [← show _ = m' from h.1]
                  rfl
                | some sharedId =>
                  cases hmo : m.orig with
                  | none =>
                    rw [hmo] at h
                    simp at h
                  | some dstId =>
                    rw [hmo] at h
                    dsimp only at h
                    simp only [Option.some.injEq, Prod.mk.injEq] at h
                    refine Or.inr ?_
                    rw [← show _ = m' from h.1]
                    rfl

/-- The pyramid state after deriving level 1 of the rectangle (0,0)-(2,2) on
a fresh non-volatile 2x2 mipmap: the cache holds the derived image id 1. -/
def c3m1 : Mipmap := ⟨2, 2, false, some 0, [(⟨0, 0, 2, 2⟩, [(1, some 1)])]⟩

/-- The world after that derivation: id 1 allocated, one half-scale copy draw
issued from the base image 0 into it. -/
def c3w1 : World :=
  ⟨2, [⟨1, 0, quadVertices 0 0 2 2 (1 / 2) 0 0 (1 / 2) 0 0 1 1 1 1, quadIndices,
    none, compositeModeCopy, TexFilter.linear, Address.clampToZero⟩], []⟩

/-- C3 counterexample: after deriving level 1 on a fresh pyramid, a drawImage
with determinant exactly zero on that pyramid leaves its derived-level cache
intact (the cache is nonempty and unchanged), and the subsequent level call
returns the cached image with no state change — no fresh derivation — so the
claim that the cache has been cleared after any drawImage is false. -/
theorem C3_det_zero_drawImage_keeps_cache :
    levelF ⟨0, 0, 2, 2⟩ 1 ⟨2, 2, false, some 0, []⟩ ⟨1, [], []⟩ =
      some (some 1, c3m1, c3w1)
    ∧ drawImageF c3m1 ⟨2, 2, false, some 9, []⟩ ⟨0, 0, 2, 2⟩
        ⟨1, 0, 0, 0, 0, 0, false⟩ ⟨true, 1, 1, 1, 1⟩ 0 TexFilter.linear c3w1 =
        some (c3m1, ⟨2, 2, false, some 9, []⟩, c3w1)
    ∧ c3m1.imgs ≠ []
    ∧ levelF ⟨0, 0, 2, 2⟩ 1 c3m1 c3w1 = some (some 1, c3m1, c3w1) := by
  refine ⟨?_, ?_, ?_, ?_⟩
  · rw [levelF]
    norm_num [ensureEntry, lookupA, insertA]
    rw [finishDerive.eq_def]
    norm_num [sizeForLevel, halveLoop, Rect.dx, Rect.dy, setLevelEntry,
      lookupA, insertA, c3m1, c3w1]
  · rw [drawImageF.eq_def,
      show GeoM.det ⟨1, 0, 0, 0, 0, 0, false⟩ = some 0 by rw [GeoM.det]; norm_num]
    dsimp only
    rw [if_pos rfl]
  · rw [c3m1]
    simp
  · rw [levelF]
    norm_num [ensureEntry, lookupA, insertA, c3m1]

/-- C3 witness: the cache-hit part applied at the state holding the derived
level (second call returns the cached image unchanged); fill, replacePixels
and drawTriangles applied at that state leave an empty cache; and the
drawImage dichotomy applied at a silent no-op instance. -/
theorem C3_level_cache_witness :
    levelF ⟨0, 0, 2, 2⟩ 1 c3m1 c3w1 = some (some 1, c3m1, c3w1)
    ∧ (disposeMipmapsF c3m1 c3w1).1.imgs = []
    ∧ ((c3m1 = c3m1 ∧ (⟨2, 2, false, some 9, []⟩ : Mipmap) =
          ⟨2, 2, false, some 9, []⟩ ∧ c3w1 = c3w1) ∨ c3m1.imgs = []) := by
  have hfirst : levelF ⟨0, 0, 2, 2⟩ 1 ⟨2, 2, false, some 0, []⟩ ⟨1, [], []⟩ =
      some (some 1, c3m1, c3w1) := by
    rw [levelF]
    norm_num [ensureEntry, lookupA, insertA]
    rw [finishDerive.eq_def]
    norm_num [sizeForLevel, halveLoop, Rect.dx, Rect.dy, setLevelEntry,
      lookupA, insertA, c3m1, c3w1]
  refine ⟨(C3_level_cache.1 _ _ _ _ _ _ _ hfirst).1, ?_, ?_⟩
  · have hfill : fillF c3m1 c3w1 =
        some ((disposeMipmapsF c3m1 c3w1).1, (disposeMipmapsF c3m1 c3w1).2) := by
      rw [fillF.eq_def]
      rw [show c3m1.orig = some 0 from rfl]
    exact C3_level_cache.2.1 c3m1 c3w1 _ _ hfill
  · have hdraw : drawImageF c3m1 ⟨2, 2, false, some 9, []⟩ ⟨0, 0, 2, 2⟩
        ⟨1, 0, 0, 0, 0, 0, false⟩ ⟨true, 1, 1, 1, 1⟩ 0 TexFilter.linear c3w1 =
        some (c3m1, ⟨2, 2, false, some 9, []⟩, c3w1) := by
      rw [drawImageF.eq_def,
        show GeoM.det ⟨1, 0, 0, 0, 0, 0, false⟩ = some 0 by rw [GeoM.det]; norm_num]
      dsimp only
      rw [if_pos rfl]
    exact C3_level_cache.2.2.2.2 _ _ _ _ _ _ _ _ _ _ _ hdraw
